import Mathlib

set_option maxRecDepth 4000

/-!
Shallow embedding of `src/os/src/memory/mapping/mapping.rs` (the `Mapping`
type: Sv39 radix page-table construction and activation).

The repository ships only `mapping.rs`; the helper types it uses
(`PageTable`, `PageTableEntry`, `PageTableTracker`, `FrameTracker`,
`FRAME_ALLOCATOR`, `Flags`, `Range`, `Segment`, the address types) live in
sibling modules that are not part of the sources.  Those are modelled from
the specification (sections 3, 4.1, 4.3 and 6 of the design document), each
with a doc comment saying so.  `mapping.rs` itself is translated
definition by definition.

State that in Rust is implicit (the physical frames' contents, the frame
allocator's free pool, the `satp` register) is made explicit in a record
`KState` (respectively `Hw`) that every operation threads through.
Dropping a `FrameTracker`/`PageTableTracker` returns its frame to the
allocator; the drops performed by the Rust error paths are translated as
explicit pushes onto the free list.
-/

/-- Modelled from the spec: permission flag bits of a page-table entry
(`Flags::VALID`), value 1 as in the Sv39 scheme (bit 0). -/
def Flags.VALID : Nat := 1

/-- Modelled from the spec: the readable permission bit (bit 1). -/
def Flags.READABLE : Nat := 2

/-- Modelled from the spec: the writable permission bit (bit 2). -/
def Flags.WRITABLE : Nat := 4

/-- Modelled from the spec: the executable permission bit (bit 3). -/
def Flags.EXECUTABLE : Nat := 8

/-- Modelled from the spec: a page-table entry is Empty (`none`, the
all-zero entry, which `PageTableEntry::is_empty` recognises) or carries a
physical page number and a flag set (`PageTableEntry::new(ppn, flags)`).
An Interior entry carries only `Flags.VALID`; a Leaf entry carries the
mapped page's flags. -/
structure PageTableEntry where
  ppn : Nat
  flags : Nat
deriving DecidableEq

/-- Modelled from the spec: a Table Node, one physical frame interpreted
as 512 entry slots.  Slots are indexed by a level index (always reduced
mod 512 by `levels`), so a total function is used. -/
structure PageTable where
  entries : Nat → Option PageTableEntry

/-- Modelled from the spec: a freshly allocated Table Node has every slot
Empty (`PageTableTracker::new` zero-initialises the frame). -/
def emptyTable : PageTable := ⟨fun _ => none⟩

/-- Explicit machine state threaded through the operations: the Frame
Allocator's pool of free physical page numbers (`alloc` pops the head,
dropping a tracker pushes its frame back — modelled from the spec's
allocator contract, section 4.1) and the contents of physical memory, one
`PageTable` view per physical page number. -/
structure KState where
  free : List Nat
  mem : Nat → PageTable

/-- Modelled from the spec: a half-open range of virtual page numbers
(`Range<VirtualPageNumber>`), iterated in ascending order. -/
structure PageRange where
  start : Nat
  stop : Nat
deriving DecidableEq

/-- Modelled from the spec: a `Segment` is Linear (identity mapping, no
owned frames) or Framed (one owned frame handle per mapped page, in
ascending page order). -/
inductive Segment where
  | linear (page_range : PageRange) (flags : Nat)
  | framed (page_range : PageRange) (flags : Nat) (frames : List Nat)
deriving DecidableEq

/-- The virtual range a segment describes. -/
def Segment.prange : Segment → PageRange
  | .linear r _ => r
  | .framed r _ _ => r

/-- The `Mapping` struct of `mapping.rs`: the owned page tables (physical
page numbers of the `PageTableTracker`s, index 0 the root) and the
recorded segments. -/
structure Mapping where
  page_tables : List Nat
  segments : List Segment
deriving DecidableEq

instance : Inhabited Mapping := ⟨⟨[], []⟩⟩

/-- The root table's physical page number, `self.page_tables.get(0)`. -/
def rootOf (m : Mapping) : Nat := m.page_tables.headD 0

/-- Modelled from the spec: `VirtualPageNumber::levels()`, the three Sv39
index slices of a virtual page number (bits 26..18, 17..9, 8..0). -/
def level0 (v : Nat) : Nat := v / 262144 % 512

/-- Second-level index slice of a virtual page number. -/
def level1 (v : Nat) : Nat := v / 512 % 512

/-- Third-level index slice of a virtual page number. -/
def level2 (v : Nat) : Nat := v % 512

/-- Write one slot of the table at physical page `t`:
`page_table.entries[idx] = e`. -/
def setEntry (mem : Nat → PageTable) (t idx : Nat) (e : Option PageTableEntry) :
    Nat → PageTable :=
  fun x => if x = t then ⟨fun i => if i = idx then e else (mem t).entries i⟩ else mem x

/-- Zero-initialise the frame at physical page `t`
(`PageTableTracker::new`). -/
def zeroPage (mem : Nat → PageTable) (t : Nat) : Nat → PageTable :=
  fun x => if x = t then emptyTable else mem x

/-- The error message of `map_one` when the terminal slot is occupied. -/
def conflictMsg : String := "virtual address is already mapped"

/-- Modelled from the spec: the Frame Allocator's failure
(ResourceExhausted), returned by `alloc()` when the pool is empty. -/
def allocMsg : String := "frame allocator is out of frames"

/-- State change of `map_one`'s empty-interior-slot branch: allocate frame
`f` (the allocator's pool becomes `rest`), zero-initialise it
(`PageTableTracker::new`) and write an Interior entry `(f, VALID)` into
slot `idx` of the table at `parent`. -/
def allocW (σ : KState) (parent idx f : Nat) (rest : List Nat) : KState :=
  { free := rest,
    mem := setEntry (zeroPage σ.mem f) parent idx (some ⟨f, Flags.VALID⟩) }

/-- State change of `map_one`'s terminal write: a Leaf entry `(p, fl)`
into slot `idx` of the table at `t`. -/
def leafW (σ : KState) (t idx p fl : Nat) : KState :=
  { σ with mem := setEntry σ.mem t idx (some ⟨p, fl⟩) }

/-- Terminal step of `map_one`: at the third-level table `t2`, write the
leaf and commit `acc` (the `new_allocated_tables` vector) to
`page_tables` if the slot is empty, otherwise fail with `conflictMsg`;
on failure `acc` is dropped, returning its frames to the allocator in
drop order. -/
def mapOneL2 (σ : KState) (m : Mapping) (t2 : Nat) (acc : List Nat)
    (vpn ppn fl : Nat) : KState × Mapping × Except String Unit :=
  match (σ.mem t2).entries (level2 vpn) with
  | none =>
      (leafW σ t2 (level2 vpn) ppn fl,
       { m with page_tables := m.page_tables ++ acc }, Except.ok ())
  | some _ =>
      ({ σ with free := acc.reverse ++ σ.free }, m, Except.error conflictMsg)

/-- Second iteration of `map_one`'s interior loop, at table `t1` with
slice `level1 vpn`: descend through a non-empty entry, or allocate a new
table (failing with `allocMsg`, and dropping `acc`, when the allocator is
exhausted). -/
def mapOneL1 (σ : KState) (m : Mapping) (t1 : Nat) (acc : List Nat)
    (vpn ppn fl : Nat) : KState × Mapping × Except String Unit :=
  match (σ.mem t1).entries (level1 vpn) with
  | some e1 => mapOneL2 σ m e1.ppn acc vpn ppn fl
  | none =>
      match σ.free with
      | [] => ({ σ with free := acc.reverse ++ σ.free }, m, Except.error allocMsg)
      | f1 :: rest =>
          mapOneL2 (allocW σ t1 (level1 vpn) f1 rest) m f1 (acc ++ [f1]) vpn ppn fl

/-- `Mapping::map_one`, the radix walk: start at `page_tables[0]`, walk
the first two level slices (descending or allocating), then write the
terminal entry.  The loop over `vpn.levels()[..2]` is unrolled into
`mapOneL1`/`mapOneL2`. -/
def Mapping.map_one (σ : KState) (m : Mapping) (vpn ppn fl : Nat) :
    KState × Mapping × Except String Unit :=
  match (σ.mem (rootOf m)).entries (level0 vpn) with
  | some e0 => mapOneL1 σ m e0.ppn [] vpn ppn fl
  | none =>
      match σ.free with
      | [] => (σ, m, Except.error allocMsg)
      | f0 :: rest =>
          mapOneL1 (allocW σ (rootOf m) (level0 vpn) f0 rest) m f0 [f0] vpn ppn fl

/-- The ascending list of pages of a half-open page range
(`page_range.iter()`). -/
def pagesOf (r : PageRange) : List Nat := List.range' r.start (r.stop - r.start)

/-- The per-page loop of `Mapping::map_linear`: `map_one(vpn,
PhysicalPageNumber::from(vpn), flags)?` for each page in order.  Modelled
from the spec: `PhysicalPageNumber::from` on a virtual page number is the
identity (Linear segments map physical = virtual by construction). -/
def mapOnePages (fl : Nat) : KState → Mapping → List Nat →
    KState × Mapping × Except String Unit
  | σ, m, [] => (σ, m, Except.ok ())
  | σ, m, v :: vs =>
      match Mapping.map_one σ m v v fl with
      | (σ1, m1, Except.ok _) => mapOnePages fl σ1 m1 vs
      | (σ1, m1, Except.error e) => (σ1, m1, Except.error e)

/-- `Mapping::map_linear`: map every page of the range identically, then
record one Linear segment; on the first per-page failure return that
error with no segment recorded. -/
def Mapping.map_linear (σ : KState) (m : Mapping) (r : PageRange) (fl : Nat) :
    KState × Mapping × Except String Unit :=
  match mapOnePages fl σ m (pagesOf r) with
  | (σ1, m1, Except.ok _) =>
      (σ1, { m1 with segments := m1.segments ++ [Segment.linear r fl] }, Except.ok ())
  | (σ1, m1, Except.error e) => (σ1, m1, Except.error e)

/-- `Mapping::map_alloc_one`: allocate a backing frame, then `map_one` the
page to it; if the walk fails the `?` drops the fresh `FrameTracker`,
returning the frame to the allocator. -/
def Mapping.map_alloc_one (σ : KState) (m : Mapping) (vpn fl : Nat) :
    KState × Mapping × Except String Nat :=
  match σ.free with
  | [] => (σ, m, Except.error allocMsg)
  | f :: rest =>
      match Mapping.map_one { σ with free := rest } m vpn f fl with
      | (σ1, m1, Except.ok _) => (σ1, m1, Except.ok f)
      | (σ1, m1, Except.error e) =>
          ({ σ1 with free := f :: σ1.free }, m1, Except.error e)

/-- The per-page loop of `Mapping::map_alloc`, accumulating the frames of
the `Segment` under construction (`segment.add_frame`). -/
def mapAllocPages (fl : Nat) : KState → Mapping → List Nat → List Nat →
    KState × Mapping × List Nat × Except String Unit
  | σ, m, [], fs => (σ, m, fs, Except.ok ())
  | σ, m, v :: vs, fs =>
      match Mapping.map_alloc_one σ m v fl with
      | (σ1, m1, Except.ok f) => mapAllocPages fl σ1 m1 vs (fs ++ [f])
      | (σ1, m1, Except.error e) => (σ1, m1, fs, Except.error e)

/-- `Mapping::map_alloc`: allocate and map every page of the range, then
record one Framed segment owning the collected frames; on the first
per-page failure the partially built segment is dropped, each of its
frame handles (sole owners) returning its frame to the allocator in drop
order. -/
def Mapping.map_alloc (σ : KState) (m : Mapping) (r : PageRange) (fl : Nat) :
    KState × Mapping × Except String Unit :=
  match mapAllocPages fl σ m (pagesOf r) [] with
  | (σ1, m1, fs, Except.ok _) =>
      (σ1, { m1 with segments := m1.segments ++ [Segment.framed r fl fs] }, Except.ok ())
  | (σ1, m1, fs, Except.error e) =>
      ({ σ1 with free := fs.reverse ++ σ1.free }, m1, Except.error e)

/-- `Mapping::new`: allocate and zero the root table. -/
def Mapping.new (σ : KState) : KState × Except String Mapping :=
  match σ.free with
  | [] => (σ, Except.error allocMsg)
  | f :: rest =>
      ({ free := rest, mem := zeroPage σ.mem f },
       Except.ok { page_tables := [f], segments := [] })

/-- Modelled from the spec: the five page-aligned linker boundaries plus
the end-of-memory configuration value consumed by `new_kernel`
(`text_start` … `boot_stack_start`, `*KERNEL_END_ADDRESS`,
`MEMORY_END_ADDRESS`), as byte addresses. -/
structure KLayout where
  text_start : Nat
  rodata_start : Nat
  data_start : Nat
  bss_start : Nat
  boot_stack_start : Nat
  kernel_end : Nat
  memory_end : Nat

/-- Modelled from the spec: `Range::from(VirtualAddress..VirtualAddress)`
converts byte addresses to a page range (page size 4096; the boundaries
are 4K-aligned per the linker script, so the conversion is exact). -/
def rangeOf (a b : Nat) : PageRange := ⟨a / 4096, b / 4096⟩

/-- `Mapping::new_kernel`: a fresh rooted mapping plus, in order, the five
Linear boot segments (.text r-x, .rodata r--, .data rw-, .bss rw-, and
the remaining physical memory rw-).  The first failure aborts the whole
builder. -/
def Mapping.new_kernel (σ : KState) (L : KLayout) : KState × Except String Mapping :=
  match Mapping.new σ with
  | (σ0, Except.error e) => (σ0, Except.error e)
  | (σ0, Except.ok m0) =>
    match Mapping.map_linear σ0 m0 (rangeOf L.text_start L.rodata_start)
        (Flags.VALID ||| Flags.READABLE ||| Flags.EXECUTABLE) with
    | (σ1, _, Except.error e) => (σ1, Except.error e)
    | (σ1, m1, Except.ok _) =>
      match Mapping.map_linear σ1 m1 (rangeOf L.rodata_start L.data_start)
          (Flags.VALID ||| Flags.READABLE) with
      | (σ2, _, Except.error e) => (σ2, Except.error e)
      | (σ2, m2, Except.ok _) =>
        match Mapping.map_linear σ2 m2 (rangeOf L.data_start L.bss_start)
            (Flags.VALID ||| Flags.READABLE ||| Flags.WRITABLE) with
        | (σ3, _, Except.error e) => (σ3, Except.error e)
        | (σ3, m3, Except.ok _) =>
          match Mapping.map_linear σ3 m3 (rangeOf L.bss_start L.boot_stack_start)
              (Flags.VALID ||| Flags.READABLE ||| Flags.WRITABLE) with
          | (σ4, _, Except.error e) => (σ4, Except.error e)
          | (σ4, m4, Except.ok _) =>
            match Mapping.map_linear σ4 m4 (rangeOf L.kernel_end L.memory_end)
                (Flags.VALID ||| Flags.READABLE ||| Flags.WRITABLE) with
            | (σ5, _, Except.error e) => (σ5, Except.error e)
            | (σ5, m5, Except.ok _) => (σ5, Except.ok m5)

/-- Modelled from the spec: the hardware translation-control state touched
by `activate` — the `satp` register plus write and flush counters so that
"writes the register at most once" is statable. -/
structure Hw where
  satp : Nat
  satpWrites : Nat
  flushes : Nat
deriving DecidableEq

/-- The control value `activate` computes: the root table's physical page
number with the Sv39 mode tag, `root_table.page_number().0 | (8 << 60)`. -/
def newSatp (m : Mapping) : Nat := rootOf m ||| (8 <<< 60)

/-- `Mapping::activate`: read the current `satp`; if the computed value
differs, write it and issue an `sfence.vma` (full TLB invalidation),
otherwise do neither. -/
def Mapping.activate (hw : Hw) (m : Mapping) : Hw :=
  if hw.satp = newSatp m then hw
  else { satp := newSatp m, satpWrites := hw.satpWrites + 1, flushes := hw.flushes + 1 }

/-- The result of the pure three-level table walk on `vpn`: the content of
the terminal slot (`none` when the path is missing or the slot Empty).
This is the translation the hardware would perform on the structure. -/
def lookup (σ : KState) (root vpn : Nat) : Option PageTableEntry :=
  match (σ.mem root).entries (level0 vpn) with
  | none => none
  | some e0 =>
      match (σ.mem e0.ppn).entries (level1 vpn) with
      | none => none
      | some e1 => (σ.mem e1.ppn).entries (level2 vpn)

/-- Terminal step of the walk exactly as the specification words it
(section 4.2): write a Leaf entry with exactly the given physical page and
flags and succeed if the terminal slot is Empty, otherwise fail with
MappingConflict. -/
def mapOneSpecL2 (mem : Nat → PageTable) (t2 vpn ppn fl : Nat) :
    (Nat → PageTable) × Bool :=
  match (mem t2).entries (level2 vpn) with
  | none => (setEntry mem t2 (level2 vpn) (some ⟨ppn, fl⟩), true)
  | some _ => (mem, false)

/-- Interior step of the walk as the specification words it: descend into
the referenced Table Node if the slot is non-empty, else allocate a fresh
(all-Empty) Table Node, write an Interior entry carrying only the valid
bit, and descend into it; `none` when the allocator is exhausted. -/
def mapOneSpecL1 (mem : Nat → PageTable) (free : List Nat) (t1 vpn ppn fl : Nat) :
    Option ((Nat → PageTable) × Bool) :=
  match (mem t1).entries (level1 vpn) with
  | some e1 => some (mapOneSpecL2 mem e1.ppn vpn ppn fl)
  | none =>
      match free with
      | [] => none
      | f1 :: _ =>
          some (mapOneSpecL2 (setEntry (zeroPage mem f1) t1 (level1 vpn)
            (some ⟨f1, Flags.VALID⟩)) f1 vpn ppn fl)

/-- Modelled from the spec (section 4.2, the Radix Walk, as claim C1 words
it): starting at the root Table Node, for each of the first two level
indices of `vpn` descend into the referenced table if the slot is
non-empty, or else allocate a new table, write an Interior entry carrying
only the valid bit at that slot, and descend into the new table; at the
third-level slot write a Leaf entry with exactly `(ppn, fl)` and succeed
if that slot is Empty, and fail with MappingConflict if it is non-empty.
Returns `none` when the Frame Allocator is exhausted (a case the claim
does not describe), otherwise `some` of the resulting physical-memory
contents paired with whether the walk succeeded. -/
def mapOneSpec (σ : KState) (root vpn ppn fl : Nat) :
    Option ((Nat → PageTable) × Bool) :=
  match (σ.mem root).entries (level0 vpn) with
  | some e0 => mapOneSpecL1 σ.mem σ.free e0.ppn vpn ppn fl
  | none =>
      match σ.free with
      | [] => none
      | f0 :: rest =>
          mapOneSpecL1 (setEntry (zeroPage σ.mem f0) root (level0 vpn)
            (some ⟨f0, Flags.VALID⟩)) rest f0 vpn ppn fl

/-- The memory component of a spec-walk result (all-Empty memory when the
walk could not run). -/
def specMemOf : Option ((Nat → PageTable) × Bool) → Nat → PageTable
  | some x => x.1
  | none => fun _ => emptyTable

/-- The success component of a spec-walk result. -/
def specOkOf : Option ((Nat → PageTable) × Bool) → Bool
  | some x => x.2
  | none => false

/-- The segments of a construction result (empty on error). -/
def segsOf : Except String Mapping → List Segment
  | Except.ok m => m.segments
  | Except.error _ => []

/-- The mapping of a construction result (default on error). -/
def mOf : Except String Mapping → Mapping
  | Except.ok m => m
  | Except.error _ => default

/-- A small concrete machine state: six free frames, all memory zeroed. -/
def stInit : KState := ⟨[10, 11, 12, 13, 14, 15], fun _ => emptyTable⟩

/-- A concrete rooted mapping whose (zeroed) root table is frame 0. -/
def mpInit : Mapping := ⟨[0], []⟩

/-- The state after successfully mapping page 5 linearly into `mpInit`. -/
def stMapped : KState := (Mapping.map_linear stInit mpInit ⟨5, 6⟩ 3).1

/-- The mapping after successfully mapping page 5 linearly into `mpInit`. -/
def mpMapped : Mapping := (Mapping.map_linear stInit mpInit ⟨5, 6⟩ 3).2.1

/-- A concrete state with exactly three free frames. -/
def stTight : KState := ⟨[1, 2, 3], fun _ => emptyTable⟩

/-- A concrete state with exactly one free frame. -/
def stOne : KState := ⟨[5], fun _ => emptyTable⟩

/-- A concrete state with exactly three free frames (frames 10, 11, 12). -/
def stThree : KState := ⟨[10, 11, 12], fun _ => emptyTable⟩

/-- Concrete page-aligned boundaries with `boot_stack_start < kernel_end`,
leaving the boot-stack pages uncovered. -/
def layoutGap : KLayout := ⟨4096, 8192, 12288, 16384, 20480, 24576, 28672⟩

/-- Concrete page-aligned boundaries with `boot_stack_start = kernel_end`. -/
def layoutTight : KLayout := ⟨4096, 8192, 12288, 16384, 20480, 20480, 24576⟩

/-- Physical page numbers referenced by the (512 meaningful) slots of a
table. -/
def PageTable.collect (T : PageTable) : List Nat :=
  (List.range 512).filterMap (fun i => (T.entries i).map (fun e => e.ppn))

/-- The level-1 tables referenced from the root table. -/
def children (σ : KState) (r : Nat) : List Nat := (σ.mem r).collect

/-- The level-2 tables referenced from the level-1 tables. -/
def grand (σ : KState) (r : Nat) : List Nat :=
  (children σ r).flatMap (fun c => (σ.mem c).collect)

/-- Every table the walk from `r` can read. -/
def tableSet (σ : KState) (r : Nat) : List Nat :=
  r :: (children σ r ++ grand σ r)

/-- Well-formedness of a state relative to a root table: the allocator's
free pool holds no duplicates and no table the walk can read, and the
readable tables form a tree (the root is not its own descendant, and no
level-1 table doubles as a level-2 table).  `Mapping::new` establishes
this and every successful operation preserves it; the source warns that
after a failure the `Mapping` "may no longer be usable", which is exactly
the loss of this invariant. -/
def WF (σ : KState) (r : Nat) : Prop :=
  σ.free.Nodup ∧
  (∀ f ∈ σ.free, f ∉ tableSet σ r) ∧
  r ∉ children σ r ∧
  r ∉ grand σ r ∧
  ∀ c ∈ children σ r, c ∉ grand σ r

instance (σ : KState) (r : Nat) : Decidable (WF σ r) := by
  unfold WF; infer_instance

/-! Basic read lemmas for the two memory writes. -/

theorem setEntry_app_ne {mem : Nat → PageTable} {t idx : Nat} {e : Option PageTableEntry}
    {x : Nat} (h : x ≠ t) : setEntry mem t idx e x = mem x := by
  simp [setEntry, h]

theorem setEntry_read_self {mem : Nat → PageTable} {t idx : Nat}
    {e : Option PageTableEntry} : (setEntry mem t idx e t).entries idx = e := by
  simp [setEntry]

theorem setEntry_read_ne_idx {mem : Nat → PageTable} {t idx : Nat}
    {e : Option PageTableEntry} {i : Nat} (h : i ≠ idx) :
    (setEntry mem t idx e t).entries i = (mem t).entries i := by
  simp [setEntry, h]

theorem zeroPage_app_ne {mem : Nat → PageTable} {t x : Nat} (h : x ≠ t) :
    zeroPage mem t x = mem x := by
  simp [zeroPage, h]

theorem zeroPage_app_self {mem : Nat → PageTable} {t : Nat} :
    zeroPage mem t t = emptyTable := by
  simp [zeroPage]

theorem emptyTable_read {i : Nat} : emptyTable.entries i = none := rfl

theorem level0_lt (v : Nat) : level0 v < 512 := Nat.mod_lt _ (by omega)

theorem level1_lt (v : Nat) : level1 v < 512 := Nat.mod_lt _ (by omega)

theorem level2_lt (v : Nat) : level2 v < 512 := Nat.mod_lt _ (by omega)

/-! The set of Table Nodes a state's tree reaches from a root, to depth 2:
all deeper tables hold only terminal entries, so these are the tables the
radix walk can read. -/



theorem mem_collect {T : PageTable} {p : Nat} :
    p ∈ T.collect ↔ ∃ i, i < 512 ∧ ∃ e, T.entries i = some e ∧ e.ppn = p := by
  simp only [PageTable.collect, List.mem_filterMap, List.mem_range, Option.map_eq_some']

theorem collect_empty : emptyTable.collect = [] := by
  simp [PageTable.collect, emptyTable]







theorem mem_grand {σ : KState} {r q : Nat} :
    q ∈ grand σ r ↔ ∃ c ∈ children σ r, q ∈ (σ.mem c).collect := by
  simp [grand, List.mem_flatMap]

theorem root_mem_tableSet {σ : KState} {r : Nat} : r ∈ tableSet σ r := by
  simp [tableSet]

theorem children_subset_tableSet {σ : KState} {r c : Nat} (h : c ∈ children σ r) :
    c ∈ tableSet σ r := by
  simp [tableSet, h]

theorem grand_subset_tableSet {σ : KState} {r g : Nat} (h : g ∈ grand σ r) :
    g ∈ tableSet σ r := by
  simp [tableSet, h]



theorem WF.free_nodup {σ : KState} {r : Nat} (h : WF σ r) : σ.free.Nodup := h.1

theorem WF.free_fresh {σ : KState} {r : Nat} (h : WF σ r) :
    ∀ f ∈ σ.free, f ∉ tableSet σ r := h.2.1

theorem WF.root_notin_children {σ : KState} {r : Nat} (h : WF σ r) :
    r ∉ children σ r := h.2.2.1

theorem WF.root_notin_grand {σ : KState} {r : Nat} (h : WF σ r) :
    r ∉ grand σ r := h.2.2.2.1

theorem WF.children_notin_grand {σ : KState} {r : Nat} (h : WF σ r) :
    ∀ c ∈ children σ r, c ∉ grand σ r := h.2.2.2.2

/-- A free frame is none of the tables the walk reads. -/
theorem WF.free_ne_root {σ : KState} {r : Nat} (h : WF σ r) {f : Nat}
    (hf : f ∈ σ.free) : f ≠ r := fun he =>
  h.free_fresh f hf (he ▸ root_mem_tableSet)

theorem WF.free_notin_children {σ : KState} {r : Nat} (h : WF σ r) {f : Nat}
    (hf : f ∈ σ.free) : f ∉ children σ r := fun hc =>
  h.free_fresh f hf (children_subset_tableSet hc)

theorem WF.free_notin_grand {σ : KState} {r : Nat} (h : WF σ r) {f : Nat}
    (hf : f ∈ σ.free) : f ∉ grand σ r := fun hg =>
  h.free_fresh f hf (grand_subset_tableSet hg)

/-- Entry targets of the root table are children. -/
theorem entry_mem_children {σ : KState} {r v : Nat} {e : PageTableEntry}
    (h : (σ.mem r).entries (level0 v) = some e) : e.ppn ∈ children σ r := by
  exact mem_collect.mpr ⟨level0 v, level0_lt v, e, h, rfl⟩

/-- Entry targets of a child table are grand tables. -/
theorem entry_mem_grand {σ : KState} {r v c : Nat} {e : PageTableEntry}
    (hc : c ∈ children σ r) (h : (σ.mem c).entries (level1 v) = some e) :
    e.ppn ∈ grand σ r :=
  mem_grand.mpr ⟨c, hc, mem_collect.mpr ⟨level1 v, level1_lt v, e, h, rfl⟩⟩

@[simp] theorem leafW_mem {σ : KState} {t idx p fl : Nat} :
    (leafW σ t idx p fl).mem = setEntry σ.mem t idx (some ⟨p, fl⟩) := rfl

@[simp] theorem leafW_free {σ : KState} {t idx p fl : Nat} :
    (leafW σ t idx p fl).free = σ.free := rfl

@[simp] theorem allocW_mem {σ : KState} {parent idx f : Nat} {rest : List Nat} :
    (allocW σ parent idx f rest).mem =
      setEntry (zeroPage σ.mem f) parent idx (some ⟨f, Flags.VALID⟩) := rfl

@[simp] theorem allocW_free {σ : KState} {parent idx f : Nat} {rest : List Nat} :
    (allocW σ parent idx f rest).free = rest := rfl

theorem flatMapCongr {l : List Nat} {f g : Nat → List Nat}
    (h : ∀ a ∈ l, f a = g a) : l.flatMap f = l.flatMap g := by
  induction l with
  | nil => rfl
  | cons a t ih =>
      simp only [List.flatMap_cons, h a (by simp)]
      rw [ih (fun b hb => h b (by simp [hb]))]

theorem children_congr {σ σ' : KState} {r : Nat} (h : σ'.mem r = σ.mem r) :
    children σ' r = children σ r := by
  unfold children; rw [h]

theorem grand_congr {σ σ' : KState} {r : Nat} (hr : σ'.mem r = σ.mem r)
    (hc : ∀ c ∈ children σ r, σ'.mem c = σ.mem c) : grand σ' r = grand σ r := by
  unfold grand
  rw [children_congr hr]
  exact flatMapCongr (fun c hcm => by rw [hc c hcm])

theorem WF_of_eq {σ σ' : KState} {r : Nat} (hWF : WF σ r)
    (hfree : σ'.free = σ.free) (hch : children σ' r = children σ r)
    (hgr : grand σ' r = grand σ r) : WF σ' r := by
  have hts : tableSet σ' r = tableSet σ r := by unfold tableSet; rw [hch, hgr]
  refine ⟨?_, ?_, ?_, ?_, ?_⟩
  · rw [hfree]; exact hWF.free_nodup
  · rw [hfree, hts]; exact hWF.free_fresh
  · rw [hch]; exact hWF.root_notin_children
  · rw [hgr]; exact hWF.root_notin_grand
  · rw [hch, hgr]; exact hWF.children_notin_grand

theorem mem_collect_setEntry {mem : Nat → PageTable} {t idx : Nat}
    {q : PageTableEntry} (hidx : idx < 512) (hnone : (mem t).entries idx = none)
    {p : Nat} :
    p ∈ (setEntry mem t idx (some q) t).collect ↔ p = q.ppn ∨ p ∈ (mem t).collect := by
  constructor
  · intro hp
    rcases mem_collect.mp hp with ⟨i, hi, e, he, hpe⟩
    by_cases hix : i = idx
    · subst hix
      rw [setEntry_read_self] at he
      cases he
      exact Or.inl hpe.symm
    · rw [setEntry_read_ne_idx hix] at he
      exact Or.inr (mem_collect.mpr ⟨i, hi, e, he, hpe⟩)
  · rintro (rfl | hp)
    · exact mem_collect.mpr ⟨idx, hidx, q, setEntry_read_self, rfl⟩
    · rcases mem_collect.mp hp with ⟨i, hi, e, he, hpe⟩
      have hix : i ≠ idx := by
        rintro rfl
        rw [hnone] at he
        cases he
      exact mem_collect.mpr ⟨i, hi, e, by rw [setEntry_read_ne_idx hix]; exact he, hpe⟩

theorem lookup_eq_of_reads {σ : KState} {root v : Nat} (e0 e1 : PageTableEntry)
    {res : Option PageTableEntry}
    (h0 : (σ.mem root).entries (level0 v) = some e0)
    (h1 : (σ.mem e0.ppn).entries (level1 v) = some e1)
    (h2 : (σ.mem e1.ppn).entries (level2 v) = res) :
    lookup σ root v = res := by
  simp only [lookup, h0, h1, h2]

theorem lookup_some_elim {σ : KState} {root v : Nat} {pte : PageTableEntry}
    (h : lookup σ root v = some pte) :
    ∃ e0 e1, (σ.mem root).entries (level0 v) = some e0 ∧
      (σ.mem e0.ppn).entries (level1 v) = some e1 ∧
      (σ.mem e1.ppn).entries (level2 v) = some pte := by
  unfold lookup at h
  rcases h0 : (σ.mem root).entries (level0 v) with _ | e0
  · simp only [h0] at h
    cases h
  · simp only [h0] at h
    rcases h1 : (σ.mem e0.ppn).entries (level1 v) with _ | e1
    · simp only [h1] at h
      cases h
    · simp only [h1] at h
      exact ⟨e0, e1, rfl, h1, h⟩

/-- Facts about the walk path that descends twice through existing interior
entries and finds the terminal slot empty. -/
theorem path_dd_facts {σ : KState} {r vpn : Nat} (ppn fl : Nat) {e0 e1 : PageTableEntry}
    (hWF : WF σ r)
    (h0 : (σ.mem r).entries (level0 vpn) = some e0)
    (h1 : (σ.mem e0.ppn).entries (level1 vpn) = some e1)
    (h2 : (σ.mem e1.ppn).entries (level2 vpn) = none) :
    WF (leafW σ e1.ppn (level2 vpn) ppn fl) r ∧
    lookup (leafW σ e1.ppn (level2 vpn) ppn fl) r vpn = some ⟨ppn, fl⟩ ∧
    ∀ w pte, lookup σ r w = some pte →
      lookup (leafW σ e1.ppn (level2 vpn) ppn fl) r w = some pte := by
  have hc0 : e0.ppn ∈ children σ r := entry_mem_children h0
  have hg : e1.ppn ∈ grand σ r := entry_mem_grand hc0 h1
  have ht2r : r ≠ e1.ppn := by
    intro he
    subst he
    exact hWF.root_notin_grand hg
  have ht2c : ∀ c ∈ children σ r, c ≠ e1.ppn := by
    intro c hcc he
    subst he
    exact hWF.children_notin_grand _ hcc hg
  have hmem : ∀ x, x ≠ e1.ppn →
      (leafW σ e1.ppn (level2 vpn) ppn fl).mem x = σ.mem x := by
    intro x hx
    rw [leafW_mem]
    exact setEntry_app_ne hx
  have hch : children (leafW σ e1.ppn (level2 vpn) ppn fl) r = children σ r :=
    children_congr (hmem r ht2r)
  have hgr : grand (leafW σ e1.ppn (level2 vpn) ppn fl) r = grand σ r :=
    grand_congr (hmem r ht2r) (fun c hcm => hmem c (ht2c c hcm))
  refine ⟨WF_of_eq hWF leafW_free hch hgr, ?_, ?_⟩
  · refine lookup_eq_of_reads e0 e1 ?_ ?_ ?_
    · rw [hmem r ht2r]; exact h0
    · rw [hmem e0.ppn (ht2c e0.ppn hc0)]; exact h1
    · rw [leafW_mem]; exact setEntry_read_self
  · intro w pte h
    obtain ⟨a0, a1, ha0, ha1, ha2⟩ := lookup_some_elim h
    have hc0w : a0.ppn ∈ children σ r := entry_mem_children ha0
    have hgw : a1.ppn ∈ grand σ r := entry_mem_grand hc0w ha1
    refine lookup_eq_of_reads a0 a1 ?_ ?_ ?_
    · rw [hmem r ht2r]; exact ha0
    · rw [hmem a0.ppn (ht2c a0.ppn hc0w)]; exact ha1
    · by_cases hx : a1.ppn = e1.ppn
      · rw [hx]
        have hl : level2 w ≠ level2 vpn := by
          intro hl
          rw [hx, hl, h2] at ha2
          cases ha2
        rw [leafW_mem, setEntry_read_ne_idx hl, ← hx]
        exact ha2
      · rw [hmem a1.ppn hx]
        exact ha2

theorem mem_tableSet {σ : KState} {r p : Nat} :
    p ∈ tableSet σ r ↔ p = r ∨ p ∈ children σ r ∨ p ∈ grand σ r := by
  simp [tableSet]

/-- A table just allocated from the free pool reads as all-Empty. -/
theorem allocW_fresh_read {σ : KState} {parent idx f : Nat} {rest : List Nat}
    (hne : f ≠ parent) (i : Nat) :
    ((allocW σ parent idx f rest).mem f).entries i = none := by
  rw [allocW_mem, setEntry_app_ne hne, zeroPage_app_self]
  rfl

/-- Facts about the walk path that descends at level 0 and allocates a new
third-level table at level 1. -/
theorem path_da_facts {σ : KState} {r vpn : Nat} (ppn fl : Nat) {f1 : Nat}
    {rest : List Nat} {e0 : PageTableEntry}
    (hWF : WF σ r)
    (h0 : (σ.mem r).entries (level0 vpn) = some e0)
    (h1 : (σ.mem e0.ppn).entries (level1 vpn) = none)
    (hfree : σ.free = f1 :: rest) :
    WF (leafW (allocW σ e0.ppn (level1 vpn) f1 rest) f1 (level2 vpn) ppn fl) r ∧
    lookup (leafW (allocW σ e0.ppn (level1 vpn) f1 rest) f1 (level2 vpn) ppn fl) r vpn
      = some ⟨ppn, fl⟩ ∧
    ∀ w pte, lookup σ r w = some pte →
      lookup (leafW (allocW σ e0.ppn (level1 vpn) f1 rest) f1 (level2 vpn) ppn fl) r w
        = some pte := by
  set σ' := leafW (allocW σ e0.ppn (level1 vpn) f1 rest) f1 (level2 vpn) ppn fl with hdef
  have hf1 : f1 ∈ σ.free := by rw [hfree]; exact List.mem_cons_self _ _
  have hc0 : e0.ppn ∈ children σ r := entry_mem_children h0
  have hf1r : f1 ≠ r := hWF.free_ne_root hf1
  have hf1c : f1 ∉ children σ r := hWF.free_notin_children hf1
  have hf1g : f1 ∉ grand σ r := hWF.free_notin_grand hf1
  have hc0r : e0.ppn ≠ r := by
    intro he
    rw [he] at hc0
    exact hWF.root_notin_children hc0
  have hf1c0 : f1 ≠ e0.ppn := by
    intro he
    subst he
    exact hf1c hc0
  have hc0g : e0.ppn ∉ grand σ r := hWF.children_notin_grand _ hc0
  have hmem_out : ∀ x, x ≠ f1 → x ≠ e0.ppn → σ'.mem x = σ.mem x := by
    intro x hx1 hx2
    rw [hdef, leafW_mem, setEntry_app_ne hx1, allocW_mem, setEntry_app_ne hx2,
      zeroPage_app_ne hx1]
  have heqc0 : σ'.mem e0.ppn =
      setEntry (zeroPage σ.mem f1) e0.ppn (level1 vpn) (some ⟨f1, Flags.VALID⟩) e0.ppn := by
    rw [hdef, leafW_mem, setEntry_app_ne (Ne.symm hf1c0), allocW_mem]
  have hc0_read_l1 : (σ'.mem e0.ppn).entries (level1 vpn) = some ⟨f1, Flags.VALID⟩ := by
    rw [heqc0]
    exact setEntry_read_self
  have hc0_read_other : ∀ i, i ≠ level1 vpn →
      (σ'.mem e0.ppn).entries i = (σ.mem e0.ppn).entries i := by
    intro i hi
    rw [heqc0, setEntry_read_ne_idx hi, zeroPage_app_ne (Ne.symm hf1c0)]
  have hzc0 : ((zeroPage σ.mem f1) e0.ppn).entries (level1 vpn) = none := by
    rw [zeroPage_app_ne (Ne.symm hf1c0)]
    exact h1
  have hf1_read_l2 : (σ'.mem f1).entries (level2 vpn) = some ⟨ppn, fl⟩ := by
    rw [hdef, leafW_mem]
    exact setEntry_read_self
  have hf1_read_other : ∀ i, i ≠ level2 vpn → (σ'.mem f1).entries i = none := by
    intro i hi
    rw [hdef, leafW_mem, setEntry_read_ne_idx hi]
    exact allocW_fresh_read hf1c0 i
  have hch : children σ' r = children σ r :=
    children_congr (hmem_out r (Ne.symm hf1r) (Ne.symm hc0r))
  have hgr_sub : ∀ q ∈ grand σ' r, q = f1 ∨ q ∈ grand σ r := by
    intro q hq
    rcases mem_grand.mp hq with ⟨c, hcm, hqc⟩
    rw [hch] at hcm
    by_cases hce : c = e0.ppn
    · subst hce
      rw [heqc0] at hqc
      rcases (mem_collect_setEntry (level1_lt vpn) hzc0).mp hqc with h | h
      · exact Or.inl h
      · rw [zeroPage_app_ne (Ne.symm hf1c0)] at h
        exact Or.inr (mem_grand.mpr ⟨e0.ppn, hcm, h⟩)
    · have hcf1 : c ≠ f1 := by
        intro he
        subst he
        exact hf1c hcm
      rw [hmem_out c hcf1 hce] at hqc
      exact Or.inr (mem_grand.mpr ⟨c, hcm, hqc⟩)
  have hWF' : WF σ' r := by
    have hfree' : σ'.free = rest := by rw [hdef]; rfl
    refine ⟨?_, ?_, ?_, ?_, ?_⟩
    · rw [hfree']
      exact (List.nodup_cons.mp (hfree ▸ hWF.free_nodup)).2
    · rw [hfree']
      intro f hf hmem
      have hfσ : f ∈ σ.free := by rw [hfree]; exact List.mem_cons_of_mem _ hf
      have hff1 : f ≠ f1 := by
        intro he
        subst he
        exact (List.nodup_cons.mp (hfree ▸ hWF.free_nodup)).1 hf
      rcases mem_tableSet.mp hmem with h | h | h
      · exact hWF.free_ne_root hfσ h
      · rw [hch] at h
        exact hWF.free_notin_children hfσ h
      · rcases hgr_sub _ h with h' | h'
        · exact hff1 h'
        · exact hWF.free_notin_grand hfσ h'
    · rw [hch]
      exact hWF.root_notin_children
    · intro h
      rcases hgr_sub _ h with h' | h'
      · exact hf1r h'.symm
      · exact hWF.root_notin_grand h'
    · intro c hcm hcg
      rw [hch] at hcm
      rcases hgr_sub _ hcg with h' | h'
      · subst h'
        exact hf1c hcm
      · exact hWF.children_notin_grand _ hcm h'
  refine ⟨hWF', ?_, ?_⟩
  · refine lookup_eq_of_reads e0 ⟨f1, Flags.VALID⟩ ?_ ?_ ?_
    · rw [hmem_out r (Ne.symm hf1r) (Ne.symm hc0r)]
      exact h0
    · exact hc0_read_l1
    · exact hf1_read_l2
  · intro w pte h
    obtain ⟨a0, a1, ha0, ha1, ha2⟩ := lookup_some_elim h
    have hc0w : a0.ppn ∈ children σ r := entry_mem_children ha0
    have hgw : a1.ppn ∈ grand σ r := entry_mem_grand hc0w ha1
    have ha1f1 : a1.ppn ≠ f1 := by
      intro he
      rw [he] at hgw
      exact hf1g hgw
    have ha1c0 : a1.ppn ≠ e0.ppn := by
      intro he
      rw [he] at hgw
      exact hc0g hgw
    refine lookup_eq_of_reads a0 a1 ?_ ?_ ?_
    · rw [hmem_out r (Ne.symm hf1r) (Ne.symm hc0r)]
      exact ha0
    · have ha0f1 : a0.ppn ≠ f1 := by
        intro he
        rw [he] at hc0w
        exact hf1c hc0w
      by_cases hae : a0.ppn = e0.ppn
      · have hl : level1 w ≠ level1 vpn := by
          intro hl
          rw [hae, hl, h1] at ha1
          cases ha1
        rw [hae, hc0_read_other _ hl, ← hae]
        exact ha1
      · rw [hmem_out a0.ppn ha0f1 hae]
        exact ha1
    · rw [hmem_out a1.ppn ha1f1 ha1c0]
      exact ha2

/-- Facts about the walk path that allocates fresh tables at both interior
levels. -/
theorem path_aa_facts {σ : KState} {r vpn : Nat} (ppn fl : Nat) {f0 f1 : Nat}
    {rest : List Nat}
    (hWF : WF σ r)
    (h0 : (σ.mem r).entries (level0 vpn) = none)
    (hfree : σ.free = f0 :: f1 :: rest) :
    WF (leafW (allocW (allocW σ r (level0 vpn) f0 (f1 :: rest)) f0 (level1 vpn) f1 rest)
        f1 (level2 vpn) ppn fl) r ∧
    lookup (leafW (allocW (allocW σ r (level0 vpn) f0 (f1 :: rest)) f0 (level1 vpn) f1 rest)
        f1 (level2 vpn) ppn fl) r vpn = some ⟨ppn, fl⟩ ∧
    ∀ w pte, lookup σ r w = some pte →
      lookup (leafW (allocW (allocW σ r (level0 vpn) f0 (f1 :: rest)) f0 (level1 vpn) f1 rest)
          f1 (level2 vpn) ppn fl) r w = some pte := by
  set σ' := leafW (allocW (allocW σ r (level0 vpn) f0 (f1 :: rest)) f0 (level1 vpn) f1 rest)
      f1 (level2 vpn) ppn fl with hdef
  have hnd : σ.free.Nodup := hWF.free_nodup
  have hf0 : f0 ∈ σ.free := by rw [hfree]; exact List.mem_cons_self _ _
  have hf1 : f1 ∈ σ.free := by
    rw [hfree]
    exact List.mem_cons_of_mem _ (List.mem_cons_self _ _)
  have hf01 : f0 ≠ f1 := by
    intro he
    rw [hfree] at hnd
    rcases List.nodup_cons.mp hnd with ⟨hn1, _⟩
    exact hn1 (he ▸ List.mem_cons_self _ _)
  have hf0r : f0 ≠ r := hWF.free_ne_root hf0
  have hf1r : f1 ≠ r := hWF.free_ne_root hf1
  have hf0c : f0 ∉ children σ r := hWF.free_notin_children hf0
  have hf1c : f1 ∉ children σ r := hWF.free_notin_children hf1
  have hf0g : f0 ∉ grand σ r := hWF.free_notin_grand hf0
  have hf1g : f1 ∉ grand σ r := hWF.free_notin_grand hf1
  have hmem_out : ∀ x, x ≠ f1 → x ≠ f0 → x ≠ r → σ'.mem x = σ.mem x := by
    intro x hx1 hx2 hx3
    rw [hdef, leafW_mem, setEntry_app_ne hx1, allocW_mem, setEntry_app_ne hx2,
      zeroPage_app_ne hx1, allocW_mem, setEntry_app_ne hx3, zeroPage_app_ne hx2]
  have heqr : σ'.mem r =
      setEntry (zeroPage σ.mem f0) r (level0 vpn) (some ⟨f0, Flags.VALID⟩) r := by
    rw [hdef, leafW_mem, setEntry_app_ne (Ne.symm hf1r), allocW_mem,
      setEntry_app_ne (Ne.symm hf0r), zeroPage_app_ne (Ne.symm hf1r), allocW_mem]
  have hzr : ((zeroPage σ.mem f0) r).entries (level0 vpn) = none := by
    rw [zeroPage_app_ne (Ne.symm hf0r)]
    exact h0
  have hr_read_l0 : (σ'.mem r).entries (level0 vpn) = some ⟨f0, Flags.VALID⟩ := by
    rw [heqr]
    exact setEntry_read_self
  have hr_read_other : ∀ i, i ≠ level0 vpn →
      (σ'.mem r).entries i = (σ.mem r).entries i := by
    intro i hi
    rw [heqr, setEntry_read_ne_idx hi, zeroPage_app_ne (Ne.symm hf0r)]
  have heqf0 : σ'.mem f0 =
      setEntry (zeroPage (allocW σ r (level0 vpn) f0 (f1 :: rest)).mem f1) f0
        (level1 vpn) (some ⟨f1, Flags.VALID⟩) f0 := by
    rw [hdef, leafW_mem, setEntry_app_ne hf01, allocW_mem]
  have hf0_read_l1 : (σ'.mem f0).entries (level1 vpn) = some ⟨f1, Flags.VALID⟩ := by
    rw [heqf0]
    exact setEntry_read_self
  have hf0_read_other : ∀ i, i ≠ level1 vpn → (σ'.mem f0).entries i = none := by
    intro i hi
    rw [heqf0, setEntry_read_ne_idx hi, zeroPage_app_ne hf01]
    exact allocW_fresh_read hf0r i
  have hf1_read_l2 : (σ'.mem f1).entries (level2 vpn) = some ⟨ppn, fl⟩ := by
    rw [hdef, leafW_mem]
    exact setEntry_read_self
  have hf1_read_other : ∀ i, i ≠ level2 vpn → (σ'.mem f1).entries i = none := by
    intro i hi
    rw [hdef, leafW_mem, setEntry_read_ne_idx hi]
    exact allocW_fresh_read (Ne.symm hf01) i
  have hch_sub : ∀ q ∈ children σ' r, q = f0 ∨ q ∈ children σ r := by
    intro q hq
    have hq' : q ∈ (setEntry (zeroPage σ.mem f0) r (level0 vpn)
        (some ⟨f0, Flags.VALID⟩) r).collect := by
      have : children σ' r = (σ'.mem r).collect := rfl
      rw [this, heqr] at hq
      exact hq
    rcases (mem_collect_setEntry (level0_lt vpn) hzr).mp hq' with h | h
    · exact Or.inl h
    · rw [zeroPage_app_ne (Ne.symm hf0r)] at h
      exact Or.inr h
  have hch_f0 : f0 ∈ children σ' r := by
    have : children σ' r = (σ'.mem r).collect := rfl
    rw [this, heqr]
    exact (mem_collect_setEntry (level0_lt vpn) hzr).mpr (Or.inl rfl)
  have hgr_sub : ∀ q ∈ grand σ' r, q = f1 ∨ q ∈ grand σ r := by
    intro q hq
    rcases mem_grand.mp hq with ⟨c, hcm, hqc⟩
    rcases hch_sub c hcm with hce | hce
    · subst hce
      rcases mem_collect.mp hqc with ⟨i, hi, e, he, hpe⟩
      by_cases hil : i = level1 vpn
      · subst hil
        rw [hf0_read_l1] at he
        cases he
        exact Or.inl hpe.symm
      · rw [hf0_read_other i hil] at he
        cases he
    · have hcf0 : c ≠ f0 := by
        intro he
        subst he
        exact hf0c hce
      have hcf1 : c ≠ f1 := by
        intro he
        subst he
        exact hf1c hce
      have hcr : c ≠ r := by
        intro he
        subst he
        exact hWF.root_notin_children hce
      rw [hmem_out c hcf1 hcf0 hcr] at hqc
      exact Or.inr (mem_grand.mpr ⟨c, hce, hqc⟩)
  have hWF' : WF σ' r := by
    have hfree' : σ'.free = rest := by rw [hdef]; rfl
    have hnd' : (f0 :: f1 :: rest).Nodup := hfree ▸ hnd
    have hf0notin : f0 ∉ f1 :: rest := (List.nodup_cons.mp hnd').1
    have hf1notin : f1 ∉ rest := (List.nodup_cons.mp (List.nodup_cons.mp hnd').2).1
    refine ⟨?_, ?_, ?_, ?_, ?_⟩
    · rw [hfree']
      exact (List.nodup_cons.mp (List.nodup_cons.mp hnd').2).2
    · rw [hfree']
      intro f hf hmem
      have hfσ : f ∈ σ.free := by
        rw [hfree]
        exact List.mem_cons_of_mem _ (List.mem_cons_of_mem _ hf)
      have hff0 : f ≠ f0 := by
        intro he
        subst he
        exact hf0notin (List.mem_cons_of_mem _ hf)
      have hff1 : f ≠ f1 := by
        intro he
        subst he
        exact hf1notin hf
      rcases mem_tableSet.mp hmem with h | h | h
      · exact hWF.free_ne_root hfσ h
      · rcases hch_sub _ h with h' | h'
        · exact hff0 h'
        · exact hWF.free_notin_children hfσ h'
      · rcases hgr_sub _ h with h' | h'
        · exact hff1 h'
        · exact hWF.free_notin_grand hfσ h'
    · intro h
      rcases hch_sub _ h with h' | h'
      · exact hf0r h'.symm
      · exact hWF.root_notin_children h'
    · intro h
      rcases hgr_sub _ h with h' | h'
      · exact hf1r h'.symm
      · exact hWF.root_notin_grand h'
    · intro c hcm hcg
      rcases hch_sub _ hcm with h' | h'
      · subst h'
        rcases hgr_sub _ hcg with h2 | h2
        · exact hf01 h2
        · exact hf0g h2
      · rcases hgr_sub _ hcg with h2 | h2
        · subst h2
          exact hf1c h'
        · exact hWF.children_notin_grand _ h' h2
  refine ⟨hWF', ?_, ?_⟩
  · exact lookup_eq_of_reads ⟨f0, Flags.VALID⟩ ⟨f1, Flags.VALID⟩
      hr_read_l0 hf0_read_l1 hf1_read_l2
  · intro w pte h
    obtain ⟨a0, a1, ha0, ha1, ha2⟩ := lookup_some_elim h
    have hc0w : a0.ppn ∈ children σ r := entry_mem_children ha0
    have hgw : a1.ppn ∈ grand σ r := entry_mem_grand hc0w ha1
    have hl0 : level0 w ≠ level0 vpn := by
      intro hl
      rw [hl, h0] at ha0
      cases ha0
    have ha0f0 : a0.ppn ≠ f0 := by
      intro he
      rw [he] at hc0w
      exact hf0c hc0w
    have ha0f1 : a0.ppn ≠ f1 := by
      intro he
      rw [he] at hc0w
      exact hf1c hc0w
    have ha0r : a0.ppn ≠ r := by
      intro he
      rw [he] at hc0w
      exact hWF.root_notin_children hc0w
    have ha1f0 : a1.ppn ≠ f0 := by
      intro he
      rw [he] at hgw
      exact hf0g hgw
    have ha1f1 : a1.ppn ≠ f1 := by
      intro he
      rw [he] at hgw
      exact hf1g hgw
    have ha1r : a1.ppn ≠ r := by
      intro he
      rw [he] at hgw
      exact hWF.root_notin_grand hgw
    refine lookup_eq_of_reads a0 a1 ?_ ?_ ?_
    · rw [hr_read_other _ hl0]
      exact ha0
    · rw [hmem_out a0.ppn ha0f1 ha0f0 ha0r]
      exact ha1
    · rw [hmem_out a1.ppn ha1f1 ha1f0 ha1r]
      exact ha2

/-- Master facts about a successful `map_one`: well-formedness is
preserved, the requested leaf is installed, existing translations are
untouched, segments are untouched and `page_tables` only grows. -/
theorem mapOne_ok_master {σ : KState} {m : Mapping} {vpn ppn fl : Nat}
    {σ' : KState} {m' : Mapping}
    (hWF : WF σ (rootOf m))
    (h : Mapping.map_one σ m vpn ppn fl = (σ', m', Except.ok ())) :
    WF σ' (rootOf m) ∧
    lookup σ' (rootOf m) vpn = some ⟨ppn, fl⟩ ∧
    (∀ w pte, lookup σ (rootOf m) w = some pte → lookup σ' (rootOf m) w = some pte) ∧
    m'.segments = m.segments ∧
    (∃ t, m'.page_tables = m.page_tables ++ t) := by
  unfold Mapping.map_one at h
  rcases h0 : (σ.mem (rootOf m)).entries (level0 vpn) with _ | e0 <;> simp only [h0] at h
  · -- level 0 slot empty: allocate
    rcases hfr : σ.free with _ | ⟨f0, rest0⟩ <;> simp only [hfr] at h
    · cases h
    · have hf0 : f0 ∈ σ.free := by rw [hfr]; exact List.mem_cons_self _ _
      have hf0r : f0 ≠ rootOf m := hWF.free_ne_root hf0
      unfold mapOneL1 at h
      simp only [allocW_fresh_read hf0r, allocW_free] at h
      rcases hr0 : rest0 with _ | ⟨f1, rest⟩ <;> simp only [hr0] at h
      · cases h
      · subst hr0
        have hfr' : σ.free = f0 :: f1 :: rest := hfr
        have hf1 : f1 ∈ σ.free := by
          rw [hfr']
          exact List.mem_cons_of_mem _ (List.mem_cons_self _ _)
        have hf10 : f1 ≠ f0 := by
          intro he
          have hnd := hWF.free_nodup
          rw [hfr'] at hnd
          exact (List.nodup_cons.mp hnd).1 (he ▸ List.mem_cons_self _ _)
        unfold mapOneL2 at h
        simp only [allocW_fresh_read hf10] at h
        cases h
        obtain ⟨hA, hB, hC⟩ := path_aa_facts ppn fl hWF h0 hfr'
        exact ⟨hA, hB, hC, rfl, ⟨[f0] ++ [f1], rfl⟩⟩
  · -- level 0 slot occupied: descend
    unfold mapOneL1 at h
    rcases h1 : (σ.mem e0.ppn).entries (level1 vpn) with _ | e1 <;> simp only [h1] at h
    · -- level 1 slot empty: allocate
      rcases hfr : σ.free with _ | ⟨f1, rest⟩ <;> simp only [hfr] at h
      · cases h
      · have hf1 : f1 ∈ σ.free := by rw [hfr]; exact List.mem_cons_self _ _
        have hc0 : e0.ppn ∈ children σ (rootOf m) := entry_mem_children h0
        have hf1c0 : f1 ≠ e0.ppn := by
          intro he
          subst he
          exact hWF.free_notin_children hf1 hc0
        unfold mapOneL2 at h
        simp only [allocW_fresh_read hf1c0] at h
        cases h
        obtain ⟨hA, hB, hC⟩ := path_da_facts ppn fl hWF h0 h1 hfr
        exact ⟨hA, hB, hC, rfl, ⟨[] ++ [f1], rfl⟩⟩
    · -- level 1 slot occupied: descend to the terminal table
      unfold mapOneL2 at h
      rcases h2 : (σ.mem e1.ppn).entries (level2 vpn) with _ | p2 <;> simp only [h2] at h
      · cases h
        obtain ⟨hA, hB, hC⟩ := path_dd_facts ppn fl hWF h0 h1 h2
        exact ⟨hA, hB, hC, rfl, ⟨[], rfl⟩⟩
      · cases h

theorem lookup_mem_congr (σ σ' : KState) {r v : Nat} (h : σ'.mem = σ.mem) :
    lookup σ' r v = lookup σ r v := by
  unfold lookup
  rw [h]

/-- Master facts about a failing `map_one`: the `Mapping` is returned
untouched (nothing is committed to `page_tables`), every frame taken from
the allocator during the walk is returned to it (the free count is
restored), and existing translations still resolve. -/
theorem mapOne_err_master {σ : KState} {m : Mapping} {vpn ppn fl : Nat}
    {σ' : KState} {m' : Mapping} {e : String}
    (hWF : WF σ (rootOf m))
    (h : Mapping.map_one σ m vpn ppn fl = (σ', m', Except.error e)) :
    m' = m ∧ σ'.free.length = σ.free.length ∧
    ∀ w pte, lookup σ (rootOf m) w = some pte → lookup σ' (rootOf m) w = some pte := by
  unfold Mapping.map_one at h
  rcases h0 : (σ.mem (rootOf m)).entries (level0 vpn) with _ | e0 <;> simp only [h0] at h
  · rcases hfr : σ.free with _ | ⟨f0, rest0⟩ <;> simp only [hfr] at h
    · cases h
      exact ⟨rfl, by rw [hfr], fun w pte hw => hw⟩
    · have hf0 : f0 ∈ σ.free := by rw [hfr]; exact List.mem_cons_self _ _
      have hf0r : f0 ≠ rootOf m := hWF.free_ne_root hf0
      unfold mapOneL1 at h
      simp only [allocW_fresh_read hf0r, allocW_free] at h
      rcases hr0 : rest0 with _ | ⟨f1, rest⟩ <;> simp only [hr0] at h
      · subst hr0
        cases h
        refine ⟨rfl, by simp [hfr], ?_⟩
        intro w pte hw
        obtain ⟨a0, a1, ha0, ha1, ha2⟩ := lookup_some_elim hw
        have hc0w : a0.ppn ∈ children σ (rootOf m) := entry_mem_children ha0
        have hgw : a1.ppn ∈ grand σ (rootOf m) := entry_mem_grand hc0w ha1
        have hl0 : level0 w ≠ level0 vpn := by
          intro hl
          rw [hl, h0] at ha0
          cases ha0
        have hmem' : ∀ x, x ≠ rootOf m → x ≠ f0 →
            (allocW σ (rootOf m) (level0 vpn) f0 []).mem x = σ.mem x := by
          intro x hx1 hx2
          rw [allocW_mem, setEntry_app_ne hx1, zeroPage_app_ne hx2]
        have ha0f0 : a0.ppn ≠ f0 := by
          intro he
          rw [he] at hc0w
          exact hWF.free_notin_children hf0 hc0w
        have ha0r : a0.ppn ≠ rootOf m := by
          intro he
          rw [he] at hc0w
          exact hWF.root_notin_children hc0w
        have ha1f0 : a1.ppn ≠ f0 := by
          intro he
          rw [he] at hgw
          exact hWF.free_notin_grand hf0 hgw
        have ha1r : a1.ppn ≠ rootOf m := by
          intro he
          rw [he] at hgw
          exact hWF.root_notin_grand hgw
        refine lookup_eq_of_reads a0 a1 ?_ ?_ ?_
        · show ((allocW σ (rootOf m) (level0 vpn) f0 []).mem (rootOf m)).entries
            (level0 w) = some a0
          rw [allocW_mem, setEntry_read_ne_idx hl0, zeroPage_app_ne (Ne.symm hf0r)]
          exact ha0
        · show ((allocW σ (rootOf m) (level0 vpn) f0 []).mem a0.ppn).entries
            (level1 w) = some a1
          rw [hmem' a0.ppn ha0r ha0f0]
          exact ha1
        · show ((allocW σ (rootOf m) (level0 vpn) f0 []).mem a1.ppn).entries
            (level2 w) = some pte
          rw [hmem' a1.ppn ha1r ha1f0]
          exact ha2
      · subst hr0
        have hfr' : σ.free = f0 :: f1 :: rest := hfr
        have hf1 : f1 ∈ σ.free := by
          rw [hfr']
          exact List.mem_cons_of_mem _ (List.mem_cons_self _ _)
        have hf10 : f1 ≠ f0 := by
          intro he
          have hnd := hWF.free_nodup
          rw [hfr'] at hnd
          exact (List.nodup_cons.mp hnd).1 (he ▸ List.mem_cons_self _ _)
        unfold mapOneL2 at h
        simp only [allocW_fresh_read hf10] at h
        cases h
  · unfold mapOneL1 at h
    rcases h1 : (σ.mem e0.ppn).entries (level1 vpn) with _ | e1 <;> simp only [h1] at h
    · rcases hfr : σ.free with _ | ⟨f1, rest⟩ <;> simp only [hfr] at h
      · cases h
        refine ⟨rfl, by simp, ?_⟩
        intro w pte hw
        exact (lookup_mem_congr σ _ rfl).trans hw
      · have hf1 : f1 ∈ σ.free := by rw [hfr]; exact List.mem_cons_self _ _
        have hc0 : e0.ppn ∈ children σ (rootOf m) := entry_mem_children h0
        have hf1c0 : f1 ≠ e0.ppn := by
          intro he
          subst he
          exact hWF.free_notin_children hf1 hc0
        unfold mapOneL2 at h
        simp only [allocW_fresh_read hf1c0] at h
        cases h
    · unfold mapOneL2 at h
      rcases h2 : (σ.mem e1.ppn).entries (level2 vpn) with _ | p2 <;> simp only [h2] at h
      · cases h
      · cases h
        refine ⟨rfl, by simp, ?_⟩
        intro w pte hw
        exact (lookup_mem_congr σ _ rfl).trans hw

/-- On a MappingConflict the walk made no allocation at all, so the whole
state and the `Mapping` are exactly unchanged. -/
theorem mapOne_conflict_master {σ : KState} {m : Mapping} {vpn ppn fl : Nat}
    {σ' : KState} {m' : Mapping}
    (hWF : WF σ (rootOf m))
    (h : Mapping.map_one σ m vpn ppn fl = (σ', m', Except.error conflictMsg)) :
    σ' = σ ∧ m' = m := by
  have hmsg : allocMsg ≠ conflictMsg := by decide
  unfold Mapping.map_one at h
  rcases h0 : (σ.mem (rootOf m)).entries (level0 vpn) with _ | e0 <;> simp only [h0] at h
  · rcases hfr : σ.free with _ | ⟨f0, rest0⟩ <;> simp only [hfr] at h
    · have h3 := congrArg (fun p : KState × Mapping × Except String Unit => p.2.2) h
      simp only at h3
      injection h3 with h4
      exact absurd h4 hmsg
    · have hf0 : f0 ∈ σ.free := by rw [hfr]; exact List.mem_cons_self _ _
      have hf0r : f0 ≠ rootOf m := hWF.free_ne_root hf0
      unfold mapOneL1 at h
      simp only [allocW_fresh_read hf0r, allocW_free] at h
      rcases hr0 : rest0 with _ | ⟨f1, rest⟩ <;> simp only [hr0] at h
      · have h3 := congrArg (fun p : KState × Mapping × Except String Unit => p.2.2) h
        simp only at h3
        injection h3 with h4
        exact absurd h4 hmsg
      · subst hr0
        have hfr' : σ.free = f0 :: f1 :: rest := hfr
        have hf1 : f1 ∈ σ.free := by
          rw [hfr']
          exact List.mem_cons_of_mem _ (List.mem_cons_self _ _)
        have hf10 : f1 ≠ f0 := by
          intro he
          have hnd := hWF.free_nodup
          rw [hfr'] at hnd
          exact (List.nodup_cons.mp hnd).1 (he ▸ List.mem_cons_self _ _)
        unfold mapOneL2 at h
        simp only [allocW_fresh_read hf10] at h
        cases h
  · unfold mapOneL1 at h
    rcases h1 : (σ.mem e0.ppn).entries (level1 vpn) with _ | e1 <;> simp only [h1] at h
    · rcases hfr : σ.free with _ | ⟨f1, rest⟩ <;> simp only [hfr] at h
      · have h3 := congrArg (fun p : KState × Mapping × Except String Unit => p.2.2) h
        simp only at h3
        injection h3 with h4
        exact absurd h4 hmsg
      · have hf1 : f1 ∈ σ.free := by rw [hfr]; exact List.mem_cons_self _ _
        have hc0 : e0.ppn ∈ children σ (rootOf m) := entry_mem_children h0
        have hf1c0 : f1 ≠ e0.ppn := by
          intro he
          subst he
          exact hWF.free_notin_children hf1 hc0
        unfold mapOneL2 at h
        simp only [allocW_fresh_read hf1c0] at h
        cases h
    · unfold mapOneL2 at h
      rcases h2 : (σ.mem e1.ppn).entries (level2 vpn) with _ | p2 <;> simp only [h2] at h
      · cases h
      · cases h
        constructor
        · cases σ with
          | mk fr me => simp
        · rfl

theorem headD_append {l t : List Nat} (h : l ≠ []) : (l ++ t).headD 0 = l.headD 0 := by
  cases l with
  | nil => exact absurd rfl h
  | cons a as => rfl

/-- Master facts about a fully successful `map_linear` page loop. -/
theorem mapOnePages_ok_master (fl : Nat) (vs : List Nat) :
    ∀ {σ : KState} {m : Mapping} {σ' : KState} {m' : Mapping},
    WF σ (rootOf m) → m.page_tables ≠ [] →
    mapOnePages fl σ m vs = (σ', m', Except.ok ()) →
    WF σ' (rootOf m) ∧ m'.segments = m.segments ∧
    (∃ t, m'.page_tables = m.page_tables ++ t) ∧
    (∀ w pte, lookup σ (rootOf m) w = some pte → lookup σ' (rootOf m) w = some pte) ∧
    (∀ v ∈ vs, lookup σ' (rootOf m) v = some ⟨v, fl⟩) := by
  induction vs with
  | nil =>
      intro σ m σ' m' hWF hne h
      simp only [mapOnePages] at h
      cases h
      exact ⟨hWF, rfl, ⟨[], by simp⟩, fun w pte hw => hw, by intro v hv; cases hv⟩
  | cons v vs ih =>
      intro σ m σ' m' hWF hne h
      simp only [mapOnePages] at h
      rcases hm1 : Mapping.map_one σ m v v fl with ⟨σ1, m1, e1 | u⟩
      · simp only [hm1] at h
        cases h
      · cases u
        simp only [hm1] at h
        obtain ⟨hWF1, hlv, hpres1, hseg1, t1, hpt1⟩ := mapOne_ok_master hWF hm1
        have hne1 : m1.page_tables ≠ [] := by
          rw [hpt1]
          intro hc
          exact hne (List.append_eq_nil.mp hc).1
        have hroot1 : rootOf m1 = rootOf m := by
          unfold rootOf
          rw [hpt1]
          exact headD_append hne
        have hWF1' : WF σ1 (rootOf m1) := by rw [hroot1]; exact hWF1
        obtain ⟨hWF', hseg', hpt', hpres', hall'⟩ := ih hWF1' hne1 h
        rw [hroot1] at hWF' hpres' hall'
        refine ⟨hWF', hseg'.trans hseg1, ?_, ?_, ?_⟩
        · obtain ⟨t2, hpt2⟩ := hpt'
          exact ⟨t1 ++ t2, by rw [hpt2, hpt1, List.append_assoc]⟩
        · intro w pte hw
          exact hpres' w pte (hpres1 w pte hw)
        · intro x hx
          rcases List.mem_cons.mp hx with rfl | hx'
          · exact hpres' x _ hlv
          · exact hall' x hx'

/-- Master facts about a failing `map_linear` page loop: the pages are
tried in order, the loop stops at the first failing page and returns its
error, leaves written for the earlier pages survive, and the `Mapping`'s
segments are untouched. -/
theorem mapOnePages_err_master (fl : Nat) (vs : List Nat) :
    ∀ {σ : KState} {m : Mapping} {σ' : KState} {m' : Mapping} {e : String},
    WF σ (rootOf m) → m.page_tables ≠ [] →
    mapOnePages fl σ m vs = (σ', m', Except.error e) →
    m'.segments = m.segments ∧
    (∃ t, m'.page_tables = m.page_tables ++ t) ∧
    (∀ w pte, lookup σ (rootOf m) w = some pte → lookup σ' (rootOf m) w = some pte) ∧
    ∃ done v rest, vs = done ++ v :: rest ∧
      (∀ w ∈ done, lookup σ' (rootOf m) w = some ⟨w, fl⟩) ∧
      ∃ σk mk, mapOnePages fl σ m done = (σk, mk, Except.ok ()) ∧
        (Mapping.map_one σk mk v v fl).2.2 = Except.error e := by
  induction vs with
  | nil =>
      intro σ m σ' m' e hWF hne h
      simp only [mapOnePages] at h
      cases h
  | cons v vs ih =>
      intro σ m σ' m' e hWF hne h
      simp only [mapOnePages] at h
      rcases hm1 : Mapping.map_one σ m v v fl with ⟨σ1, m1, e1 | u⟩
      · simp only [hm1] at h
        cases h
        obtain ⟨hm, hlen, hpres⟩ := mapOne_err_master hWF hm1
        refine ⟨by rw [hm], ⟨[], by rw [hm, List.append_nil]⟩, hpres,
          [], v, vs, rfl, ?_, σ, m, ?_, ?_⟩
        · intro w hw
          exact absurd hw (List.not_mem_nil w)
        · rfl
        · rw [hm1]
      · cases u
        simp only [hm1] at h
        obtain ⟨hWF1, hlv, hpres1, hseg1, t1, hpt1⟩ := mapOne_ok_master hWF hm1
        have hne1 : m1.page_tables ≠ [] := by
          rw [hpt1]
          intro hc
          exact hne (List.append_eq_nil.mp hc).1
        have hroot1 : rootOf m1 = rootOf m := by
          unfold rootOf
          rw [hpt1]
          exact headD_append hne
        have hWF1' : WF σ1 (rootOf m1) := by rw [hroot1]; exact hWF1
        obtain ⟨hseg', hpt', hpres', done', v', rest', hvs, hdone, σk, mk, hok, herr⟩ :=
          ih hWF1' hne1 h
        rw [hroot1] at hpres' hdone
        refine ⟨hseg'.trans hseg1, ?_, ?_, v :: done', v', rest', by rw [hvs]; rfl, ?_,
          σk, mk, ?_, herr⟩
        · obtain ⟨t2, hpt2⟩ := hpt'
          exact ⟨t1 ++ t2, by rw [hpt2, hpt1, List.append_assoc]⟩
        · intro w pte hw
          exact hpres' w pte (hpres1 w pte hw)
        · intro w hw
          rcases List.mem_cons.mp hw with rfl | hw'
          · exact hpres' w _ hlv
          · exact hdone w hw'
        · simp only [mapOnePages, hm1]
          exact hok

/-- Popping the head of the free pool preserves well-formedness. -/
theorem WF_tail {σ : KState} {r f0 : Nat} {rest : List Nat}
    (hWF : WF σ r) (hfr : σ.free = f0 :: rest) : WF { σ with free := rest } r := by
  refine ⟨?_, ?_, hWF.root_notin_children, hWF.root_notin_grand, hWF.children_notin_grand⟩
  · have := hWF.free_nodup
    rw [hfr] at this
    exact (List.nodup_cons.mp this).2
  · intro f hf
    have : f ∈ σ.free := by
      rw [hfr]
      exact List.mem_cons_of_mem _ hf
    exact hWF.free_fresh f this

/-- Master facts about a successful `map_alloc_one`: the page is bound to
the freshly allocated frame. -/
theorem mapAllocOne_ok_master {σ : KState} {m : Mapping} {vpn fl : Nat}
    {σ1 : KState} {m1 : Mapping} {f : Nat}
    (hWF : WF σ (rootOf m))
    (h : Mapping.map_alloc_one σ m vpn fl = (σ1, m1, Except.ok f)) :
    WF σ1 (rootOf m) ∧
    lookup σ1 (rootOf m) vpn = some ⟨f, fl⟩ ∧
    (∀ w pte, lookup σ (rootOf m) w = some pte → lookup σ1 (rootOf m) w = some pte) ∧
    m1.segments = m.segments ∧
    (∃ t, m1.page_tables = m.page_tables ++ t) := by
  unfold Mapping.map_alloc_one at h
  rcases hfr : σ.free with _ | ⟨f0, rest⟩ <;> simp only [hfr] at h
  · cases h
  · rcases hm : Mapping.map_one { σ with free := rest } m vpn f0 fl with ⟨σ2, m2, e2 | u⟩
    · simp only [hm] at h
      cases h
    · cases u
      simp only [hm] at h
      cases h
      have hWFt : WF { σ with free := rest } (rootOf m) := WF_tail hWF hfr
      obtain ⟨hWF2, hlv, hpres, hseg, hpt⟩ := mapOne_ok_master hWFt hm
      refine ⟨hWF2, hlv, ?_, hseg, hpt⟩
      intro w pte hw
      exact hpres w pte ((lookup_mem_congr σ ⟨rest, σ.mem⟩ rfl).trans hw)

/-- Master facts about a failing `map_alloc_one`: the mapping is
untouched, all frames return to the pool, translations survive. -/
theorem mapAllocOne_err_master {σ : KState} {m : Mapping} {vpn fl : Nat}
    {σ1 : KState} {m1 : Mapping} {e : String}
    (hWF : WF σ (rootOf m))
    (h : Mapping.map_alloc_one σ m vpn fl = (σ1, m1, Except.error e)) :
    m1 = m ∧ σ1.free.length = σ.free.length ∧
    ∀ w pte, lookup σ (rootOf m) w = some pte → lookup σ1 (rootOf m) w = some pte := by
  unfold Mapping.map_alloc_one at h
  rcases hfr : σ.free with _ | ⟨f0, rest⟩ <;> simp only [hfr] at h
  · cases h
    exact ⟨rfl, by rw [hfr], fun w pte hw => hw⟩
  · rcases hm : Mapping.map_one { σ with free := rest } m vpn f0 fl with ⟨σ2, m2, e2 | u⟩
    · simp only [hm] at h
      cases h
      have hWFt : WF { σ with free := rest } (rootOf m) := WF_tail hWF hfr
      obtain ⟨hm2, hlen, hpres⟩ := mapOne_err_master hWFt hm
      have hlen2 : σ2.free.length = rest.length := hlen
      refine ⟨hm2, ?_, ?_⟩
      · show (f0 :: σ2.free).length = (f0 :: rest).length
        simp only [List.length_cons, hlen2]
      · intro w pte hw
        have h1 : lookup { free := rest, mem := σ.mem } (rootOf m) w = some pte :=
          (lookup_mem_congr σ ⟨rest, σ.mem⟩ rfl).trans hw
        have h2 := hpres w pte h1
        exact (lookup_mem_congr σ2 ⟨f0 :: σ2.free, σ2.mem⟩ rfl).trans h2
    · cases u
      simp only [hm] at h
      cases h

/-- Master facts about a fully successful `map_alloc` page loop. -/
theorem mapAllocPages_ok_master (fl : Nat) (vs : List Nat) :
    ∀ {σ : KState} {m : Mapping} {σ' : KState} {m' : Mapping} {fs fs' : List Nat},
    WF σ (rootOf m) → m.page_tables ≠ [] →
    mapAllocPages fl σ m vs fs = (σ', m', fs', Except.ok ()) →
    WF σ' (rootOf m) ∧ m'.segments = m.segments ∧
    (∃ t, m'.page_tables = m.page_tables ++ t) ∧
    (∀ w pte, lookup σ (rootOf m) w = some pte → lookup σ' (rootOf m) w = some pte) ∧
    ∃ gs, fs' = fs ++ gs ∧ gs.length = vs.length ∧
      ∀ p ∈ vs.zip gs, lookup σ' (rootOf m) p.1 = some ⟨p.2, fl⟩ := by
  induction vs with
  | nil =>
      intro σ m σ' m' fs fs' hWF hne h
      simp only [mapAllocPages] at h
      cases h
      exact ⟨hWF, rfl, ⟨[], by simp⟩, fun w pte hw => hw,
        ⟨[], by simp, rfl, by intro p hp; cases hp⟩⟩
  | cons v vs ih =>
      intro σ m σ' m' fs fs' hWF hne h
      simp only [mapAllocPages] at h
      rcases hm1 : Mapping.map_alloc_one σ m v fl with ⟨σ1, m1, e1 | f⟩
      · simp only [hm1] at h
        cases h
      · simp only [hm1] at h
        obtain ⟨hWF1, hlv, hpres1, hseg1, t1, hpt1⟩ := mapAllocOne_ok_master hWF hm1
        have hne1 : m1.page_tables ≠ [] := by
          rw [hpt1]
          intro hc
          exact hne (List.append_eq_nil.mp hc).1
        have hroot1 : rootOf m1 = rootOf m := by
          unfold rootOf
          rw [hpt1]
          exact headD_append hne
        have hWF1' : WF σ1 (rootOf m1) := by rw [hroot1]; exact hWF1
        obtain ⟨hWF', hseg', hpt', hpres', gs, hfs, hlen, hall⟩ := ih hWF1' hne1 h
        rw [hroot1] at hWF' hpres' hall
        refine ⟨hWF', hseg'.trans hseg1, ?_, ?_, f :: gs, ?_, ?_, ?_⟩
        · obtain ⟨t2, hpt2⟩ := hpt'
          exact ⟨t1 ++ t2, by rw [hpt2, hpt1, List.append_assoc]⟩
        · intro w pte hw
          exact hpres' w pte (hpres1 w pte hw)
        · rw [hfs]
          simp
        · simp [hlen]
        · intro p hp
          rw [List.zip_cons_cons] at hp
          rcases List.mem_cons.mp hp with rfl | hp'
          · exact hpres' v _ hlv
          · exact hall p hp'

/-- Master facts about a failing `map_alloc` page loop: first-failure
split, frames collected so far, and surviving translations. -/
theorem mapAllocPages_err_master (fl : Nat) (vs : List Nat) :
    ∀ {σ : KState} {m : Mapping} {σ' : KState} {m' : Mapping} {fs fs' : List Nat}
      {e : String},
    WF σ (rootOf m) → m.page_tables ≠ [] →
    mapAllocPages fl σ m vs fs = (σ', m', fs', Except.error e) →
    m'.segments = m.segments ∧
    (∃ t, m'.page_tables = m.page_tables ++ t) ∧
    (∀ w pte, lookup σ (rootOf m) w = some pte → lookup σ' (rootOf m) w = some pte) ∧
    ∃ done v rest gs, vs = done ++ v :: rest ∧ fs' = fs ++ gs ∧
      gs.length = done.length ∧
      (∀ p ∈ done.zip gs, lookup σ' (rootOf m) p.1 = some ⟨p.2, fl⟩) ∧
      ∃ σk mk, mapAllocPages fl σ m done fs = (σk, mk, fs ++ gs, Except.ok ()) ∧
        (Mapping.map_alloc_one σk mk v fl).2.2 = Except.error e := by
  induction vs with
  | nil =>
      intro σ m σ' m' fs fs' e hWF hne h
      simp only [mapAllocPages] at h
      cases h
  | cons v vs ih =>
      intro σ m σ' m' fs fs' e hWF hne h
      simp only [mapAllocPages] at h
      rcases hm1 : Mapping.map_alloc_one σ m v fl with ⟨σ1, m1, e1 | f⟩
      · simp only [hm1] at h
        cases h
        obtain ⟨hm, hlen, hpres⟩ := mapAllocOne_err_master hWF hm1
        refine ⟨by rw [hm], ⟨[], by rw [hm, List.append_nil]⟩, hpres,
          [], v, vs, [], rfl, by simp, rfl, ?_, σ, m, ?_, ?_⟩
        · intro p hp
          cases hp
        · simp only [mapAllocPages]
          rw [List.append_nil]
        · rw [hm1]
      · simp only [hm1] at h
        obtain ⟨hWF1, hlv, hpres1, hseg1, t1, hpt1⟩ := mapAllocOne_ok_master hWF hm1
        have hne1 : m1.page_tables ≠ [] := by
          rw [hpt1]
          intro hc
          exact hne (List.append_eq_nil.mp hc).1
        have hroot1 : rootOf m1 = rootOf m := by
          unfold rootOf
          rw [hpt1]
          exact headD_append hne
        have hWF1' : WF σ1 (rootOf m1) := by rw [hroot1]; exact hWF1
        obtain ⟨hseg', hpt', hpres', done', v', rest', gs, hvs, hfs, hlen, hdone,
          σk, mk, hok, herr⟩ := ih hWF1' hne1 h
        rw [hroot1] at hpres' hdone
        refine ⟨hseg'.trans hseg1, ?_, ?_, v :: done', v', rest', f :: gs,
          by rw [hvs]; rfl, ?_, by simp [hlen], ?_, σk, mk, ?_, herr⟩
        · obtain ⟨t2, hpt2⟩ := hpt'
          exact ⟨t1 ++ t2, by rw [hpt2, hpt1, List.append_assoc]⟩
        · intro w pte hw
          exact hpres' w pte (hpres1 w pte hw)
        · rw [hfs]
          simp
        · intro p hp
          rw [List.zip_cons_cons] at hp
          rcases List.mem_cons.mp hp with rfl | hp'
          · exact hpres' v _ hlv
          · exact hdone p hp'
        · simp only [mapAllocPages, hm1]
          rw [hok]
          simp

/-! Unconditional bookkeeping: no operation ever touches `segments`
inside the walk, and `page_tables` only ever grows, on success and on
failure alike. -/

theorem mapOneL2_segments (σ : KState) (m : Mapping) (t2 : Nat) (acc : List Nat)
    (vpn ppn fl : Nat) : (mapOneL2 σ m t2 acc vpn ppn fl).2.1.segments = m.segments := by
  unfold mapOneL2
  split <;> rfl

theorem mapOneL1_segments (σ : KState) (m : Mapping) (t1 : Nat) (acc : List Nat)
    (vpn ppn fl : Nat) : (mapOneL1 σ m t1 acc vpn ppn fl).2.1.segments = m.segments := by
  unfold mapOneL1
  split
  · apply mapOneL2_segments
  · split
    · rfl
    · apply mapOneL2_segments

theorem mapOne_segments (σ : KState) (m : Mapping) (vpn ppn fl : Nat) :
    (Mapping.map_one σ m vpn ppn fl).2.1.segments = m.segments := by
  unfold Mapping.map_one
  split
  · apply mapOneL1_segments
  · split
    · rfl
    · apply mapOneL1_segments

theorem mapOneL2_pt (σ : KState) (m : Mapping) (t2 : Nat) (acc : List Nat)
    (vpn ppn fl : Nat) :
    ∃ t, (mapOneL2 σ m t2 acc vpn ppn fl).2.1.page_tables = m.page_tables ++ t := by
  unfold mapOneL2
  split
  · exact ⟨acc, rfl⟩
  · exact ⟨[], by simp⟩

theorem mapOneL1_pt (σ : KState) (m : Mapping) (t1 : Nat) (acc : List Nat)
    (vpn ppn fl : Nat) :
    ∃ t, (mapOneL1 σ m t1 acc vpn ppn fl).2.1.page_tables = m.page_tables ++ t := by
  unfold mapOneL1
  split
  · apply mapOneL2_pt
  · split
    · exact ⟨[], by simp⟩
    · apply mapOneL2_pt

theorem mapOne_pt (σ : KState) (m : Mapping) (vpn ppn fl : Nat) :
    ∃ t, (Mapping.map_one σ m vpn ppn fl).2.1.page_tables = m.page_tables ++ t := by
  unfold Mapping.map_one
  split
  · apply mapOneL1_pt
  · split
    · exact ⟨[], by simp⟩
    · apply mapOneL1_pt

theorem mapOnePages_segments (fl : Nat) (vs : List Nat) :
    ∀ (σ : KState) (m : Mapping),
    (mapOnePages fl σ m vs).2.1.segments = m.segments := by
  induction vs with
  | nil => intro σ m; rfl
  | cons v vs ih =>
      intro σ m
      simp only [mapOnePages]
      rcases hm : Mapping.map_one σ m v v fl with ⟨σ1, m1, e1 | u⟩
      · have := mapOne_segments σ m v v fl
        rw [hm] at this
        simpa using this
      · have := mapOne_segments σ m v v fl
        rw [hm] at this
        simp only []
        exact (ih σ1 m1).trans this

theorem mapOnePages_pt (fl : Nat) (vs : List Nat) :
    ∀ (σ : KState) (m : Mapping),
    ∃ t, (mapOnePages fl σ m vs).2.1.page_tables = m.page_tables ++ t := by
  induction vs with
  | nil => intro σ m; exact ⟨[], by simp [mapOnePages]⟩
  | cons v vs ih =>
      intro σ m
      simp only [mapOnePages]
      rcases hm : Mapping.map_one σ m v v fl with ⟨σ1, m1, e1 | u⟩
      · obtain ⟨t, ht⟩ := mapOne_pt σ m v v fl
        rw [hm] at ht
        exact ⟨t, by simpa using ht⟩
      · obtain ⟨t1, ht1⟩ := mapOne_pt σ m v v fl
        rw [hm] at ht1
        obtain ⟨t2, ht2⟩ := ih σ1 m1
        refine ⟨t1 ++ t2, ?_⟩
        simp only []
        rw [ht2]
        simp only at ht1
        rw [ht1, List.append_assoc]

theorem mapAllocOne_segments (σ : KState) (m : Mapping) (vpn fl : Nat) :
    (Mapping.map_alloc_one σ m vpn fl).2.1.segments = m.segments := by
  unfold Mapping.map_alloc_one
  split
  · rfl
  · rename_i f rest hfr
    rcases hm : Mapping.map_one { σ with free := rest } m vpn f fl with ⟨σ1, m1, e1 | u⟩
    · have := mapOne_segments { σ with free := rest } m vpn f fl
      rw [hm] at this
      simpa using this
    · have := mapOne_segments { σ with free := rest } m vpn f fl
      rw [hm] at this
      simpa using this

theorem mapAllocOne_pt (σ : KState) (m : Mapping) (vpn fl : Nat) :
    ∃ t, (Mapping.map_alloc_one σ m vpn fl).2.1.page_tables = m.page_tables ++ t := by
  unfold Mapping.map_alloc_one
  split
  · exact ⟨[], by simp⟩
  · rename_i f rest hfr
    rcases hm : Mapping.map_one { σ with free := rest } m vpn f fl with ⟨σ1, m1, e1 | u⟩
    · obtain ⟨t, ht⟩ := mapOne_pt { σ with free := rest } m vpn f fl
      rw [hm] at ht
      exact ⟨t, by simpa using ht⟩
    · obtain ⟨t, ht⟩ := mapOne_pt { σ with free := rest } m vpn f fl
      rw [hm] at ht
      exact ⟨t, by simpa using ht⟩

theorem mapAllocPages_segments (fl : Nat) (vs : List Nat) :
    ∀ (σ : KState) (m : Mapping) (fs : List Nat),
    (mapAllocPages fl σ m vs fs).2.1.segments = m.segments := by
  induction vs with
  | nil => intro σ m fs; rfl
  | cons v vs ih =>
      intro σ m fs
      simp only [mapAllocPages]
      rcases hm : Mapping.map_alloc_one σ m v fl with ⟨σ1, m1, e1 | f⟩
      · have := mapAllocOne_segments σ m v fl
        rw [hm] at this
        simpa using this
      · have := mapAllocOne_segments σ m v fl
        rw [hm] at this
        simp only []
        exact (ih σ1 m1 (fs ++ [f])).trans this

theorem mapAllocPages_pt (fl : Nat) (vs : List Nat) :
    ∀ (σ : KState) (m : Mapping) (fs : List Nat),
    ∃ t, (mapAllocPages fl σ m vs fs).2.1.page_tables = m.page_tables ++ t := by
  induction vs with
  | nil => intro σ m fs; exact ⟨[], by simp [mapAllocPages]⟩
  | cons v vs ih =>
      intro σ m fs
      simp only [mapAllocPages]
      rcases hm : Mapping.map_alloc_one σ m v fl with ⟨σ1, m1, e1 | f⟩
      · obtain ⟨t, ht⟩ := mapAllocOne_pt σ m v fl
        rw [hm] at ht
        exact ⟨t, by simpa using ht⟩
      · obtain ⟨t1, ht1⟩ := mapAllocOne_pt σ m v fl
        rw [hm] at ht1
        obtain ⟨t2, ht2⟩ := ih σ1 m1 (fs ++ [f])
        refine ⟨t1 ++ t2, ?_⟩
        simp only []
        rw [ht2]
        simp only at ht1
        rw [ht1, List.append_assoc]

theorem map_linear_segments_ok {σ : KState} {m : Mapping} {r : PageRange} {fl : Nat}
    {σ' : KState} {m' : Mapping}
    (h : Mapping.map_linear σ m r fl = (σ', m', Except.ok ())) :
    m'.segments = m.segments ++ [Segment.linear r fl] := by
  unfold Mapping.map_linear at h
  rcases hmp : mapOnePages fl σ m (pagesOf r) with ⟨σ1, m1, e1 | u⟩
  · simp only [hmp] at h
    cases h
  · cases u
    simp only [hmp] at h
    cases h
    have := mapOnePages_segments fl (pagesOf r) σ m
    rw [hmp] at this
    simp only at this
    rw [this]

theorem map_linear_pt (σ : KState) (m : Mapping) (r : PageRange) (fl : Nat) :
    ∃ t, (Mapping.map_linear σ m r fl).2.1.page_tables = m.page_tables ++ t := by
  unfold Mapping.map_linear
  obtain ⟨t, ht⟩ := mapOnePages_pt fl (pagesOf r) σ m
  rcases hmp : mapOnePages fl σ m (pagesOf r) with ⟨σ1, m1, e1 | u⟩
  · rw [hmp] at ht
    exact ⟨t, by simpa using ht⟩
  · cases u
    rw [hmp] at ht
    exact ⟨t, by simpa using ht⟩

theorem map_alloc_pt (σ : KState) (m : Mapping) (r : PageRange) (fl : Nat) :
    ∃ t, (Mapping.map_alloc σ m r fl).2.1.page_tables = m.page_tables ++ t := by
  unfold Mapping.map_alloc
  obtain ⟨t, ht⟩ := mapAllocPages_pt fl (pagesOf r) σ m []
  rcases hmp : mapAllocPages fl σ m (pagesOf r) [] with ⟨σ1, m1, fs1, e1 | u⟩
  · rw [hmp] at ht
    exact ⟨t, by simpa using ht⟩
  · cases u
    rw [hmp] at ht
    exact ⟨t, by simpa using ht⟩

/-- Claim C6: `activate` computes the control value from the root table's
physical page number combined with the fixed mode tag `8 <<< 60`
(`newSatp`); it writes the translation-control register and issues a full
translation-cache invalidation exactly when that value differs from the
currently active one; consequently two `activate` calls with no mapping
mutation in between write the register at most once. -/
theorem activate_writes_iff_changed (hw : Hw) (m : Mapping) :
    (Mapping.activate hw m).satp = newSatp m ∧
    (Mapping.activate hw m).satpWrites =
      hw.satpWrites + (if hw.satp = newSatp m then 0 else 1) ∧
    (Mapping.activate hw m).flushes =
      hw.flushes + (if hw.satp = newSatp m then 0 else 1) ∧
    Mapping.activate (Mapping.activate hw m) m = Mapping.activate hw m ∧
    (Mapping.activate (Mapping.activate hw m) m).satpWrites ≤ hw.satpWrites + 1 := by
  unfold Mapping.activate
  by_cases h : hw.satp = newSatp m <;> simp [h]

/-- Bridge at the terminal level between the implementation's walk and
the specification's walk. -/
theorem specL2_bridge (σB : KState) (m : Mapping) (t2 : Nat) (acc : List Nat)
    (vpn ppn fl : Nat) (mm : Nat → PageTable) (b : Bool)
    (h : mapOneSpecL2 σB.mem t2 vpn ppn fl = (mm, b)) :
    (mapOneL2 σB m t2 acc vpn ppn fl).1.mem = mm ∧
    (mapOneL2 σB m t2 acc vpn ppn fl).2.2 =
      (if b then Except.ok () else Except.error conflictMsg) := by
  unfold mapOneSpecL2 at h
  unfold mapOneL2
  rcases h2 : (σB.mem t2).entries (level2 vpn) with _ | p2 <;> simp only [h2] at h ⊢
  · cases h
    exact ⟨rfl, rfl⟩
  · cases h
    exact ⟨rfl, rfl⟩

/-- Bridge at the second interior level between the implementation's walk
and the specification's walk. -/
theorem specL1_bridge (σA : KState) (m : Mapping) (t1 : Nat) (acc : List Nat)
    (vpn ppn fl : Nat) (mm : Nat → PageTable) (b : Bool)
    (h : mapOneSpecL1 σA.mem σA.free t1 vpn ppn fl = some (mm, b)) :
    (mapOneL1 σA m t1 acc vpn ppn fl).1.mem = mm ∧
    (mapOneL1 σA m t1 acc vpn ppn fl).2.2 =
      (if b then Except.ok () else Except.error conflictMsg) := by
  unfold mapOneSpecL1 at h
  unfold mapOneL1
  rcases h1 : (σA.mem t1).entries (level1 vpn) with _ | e1 <;> simp only [h1] at h ⊢
  · rcases hfr : σA.free with _ | ⟨f1, rest⟩ <;> simp only [hfr] at h ⊢
    · cases h
    · injection h with h'
      exact specL2_bridge (allocW σA t1 (level1 vpn) f1 rest) m f1 (acc ++ [f1])
        vpn ppn fl mm b h'
  · injection h with h'
    exact specL2_bridge σA m e1.ppn acc vpn ppn fl mm b h'

/-- Claim C1: whenever the specification's radix walk (`mapOneSpec`,
worded exactly as in section 4.2: start at `page_tables[0]`, descend or
allocate at the first two level indices writing valid-only Interior
entries, then write a Leaf entry `(ppn, fl)` on an Empty third-level slot
and succeed, or fail with MappingConflict on a non-empty one) applies,
`map_one` produces exactly the memory contents and the success/conflict
status the specification's walk prescribes. -/
theorem map_one_follows_spec_walk (σ : KState) (m : Mapping) (vpn ppn fl : Nat)
    (mm : Nat → PageTable) (b : Bool)
    (h : mapOneSpec σ (rootOf m) vpn ppn fl = some (mm, b)) :
    (Mapping.map_one σ m vpn ppn fl).1.mem = mm ∧
    (Mapping.map_one σ m vpn ppn fl).2.2 =
      (if b then Except.ok () else Except.error conflictMsg) := by
  unfold mapOneSpec at h
  unfold Mapping.map_one
  rcases h0 : (σ.mem (rootOf m)).entries (level0 vpn) with _ | e0 <;>
    simp only [h0] at h ⊢
  · rcases hfr : σ.free with _ | ⟨f0, rest⟩ <;> simp only [hfr] at h ⊢
    · cases h
    · exact specL1_bridge (allocW σ (rootOf m) (level0 vpn) f0 rest) m f0 [f0]
        vpn ppn fl mm b h
  · exact specL1_bridge σ m e0.ppn [] vpn ppn fl mm b h

/-- Witness for claim C1 at a concrete input: on `stInit`/`mpInit`, the
specification walk succeeds for page 1 and `map_one` produces exactly its
memory and status. -/
theorem map_one_follows_spec_walk_witness :
    mapOneSpec stInit (rootOf mpInit) 1 7 3 =
      some (specMemOf (mapOneSpec stInit (rootOf mpInit) 1 7 3),
            specOkOf (mapOneSpec stInit (rootOf mpInit) 1 7 3)) ∧
    (Mapping.map_one stInit mpInit 1 7 3).1.mem =
      specMemOf (mapOneSpec stInit (rootOf mpInit) 1 7 3) ∧
    (Mapping.map_one stInit mpInit 1 7 3).2.2 =
      (if specOkOf (mapOneSpec stInit (rootOf mpInit) 1 7 3) then Except.ok ()
       else Except.error conflictMsg) := by
  have h : mapOneSpec stInit (rootOf mpInit) 1 7 3 =
      some (specMemOf (mapOneSpec stInit (rootOf mpInit) 1 7 3),
            specOkOf (mapOneSpec stInit (rootOf mpInit) 1 7 3)) := rfl
  obtain ⟨h1, h2⟩ := map_one_follows_spec_walk stInit mpInit 1 7 3 _ _ h
  exact ⟨h, h1, h2⟩

/-- When the walked path fully exists and ends in a non-empty slot,
`map_one` is the conflict error and a complete no-op. -/
theorem mapOne_remap_core {σ : KState} {m : Mapping} {vpn ppn fl : Nat}
    {pte : PageTableEntry} (hb : lookup σ (rootOf m) vpn = some pte) :
    Mapping.map_one σ m vpn ppn fl = (σ, m, Except.error conflictMsg) := by
  obtain ⟨e0, e1, h0, h1, h2⟩ := lookup_some_elim hb
  have s1 : Mapping.map_one σ m vpn ppn fl = mapOneL1 σ m e0.ppn [] vpn ppn fl := by
    unfold Mapping.map_one
    simp only [h0]
  have s2 : mapOneL1 σ m e0.ppn [] vpn ppn fl = mapOneL2 σ m e1.ppn [] vpn ppn fl := by
    unfold mapOneL1
    simp only [h1]
  have s3 : mapOneL2 σ m e1.ppn [] vpn ppn fl =
      ({ σ with free := List.reverse [] ++ σ.free }, m, Except.error conflictMsg) := by
    unfold mapOneL2
    simp only [h2]
  have he : { σ with free := List.reverse [] ++ σ.free } = σ := by
    cases σ with
    | mk fr me => simp
  rw [s1, s2, s3, he]

/-- Claim C3: a virtual page already bound by a successful mapping cannot
be mapped again: a further `map_one` on it (the per-page step of any
`map_linear`/`map_alloc` call), a further one-page `map_linear` call and
a further one-page `map_alloc` call all fail with MappingConflict and
leave the state — in particular the originally bound physical page number
and flags — exactly unchanged. -/
theorem remap_conflict_preserves_binding (σ : KState) (m : Mapping)
    (vpn ppn fl : Nat) (pte : PageTableEntry)
    (hb : lookup σ (rootOf m) vpn = some pte) :
    Mapping.map_one σ m vpn ppn fl = (σ, m, Except.error conflictMsg) ∧
    lookup (Mapping.map_one σ m vpn ppn fl).1 (rootOf m) vpn = some pte ∧
    Mapping.map_linear σ m ⟨vpn, vpn + 1⟩ fl = (σ, m, Except.error conflictMsg) ∧
    ∀ f rest, σ.free = f :: rest →
      Mapping.map_alloc σ m ⟨vpn, vpn + 1⟩ fl = (σ, m, Except.error conflictMsg) := by
  have hcore : Mapping.map_one σ m vpn ppn fl = (σ, m, Except.error conflictMsg) :=
    mapOne_remap_core hb
  have hpg : pagesOf ⟨vpn, vpn + 1⟩ = [vpn] := by
    unfold pagesOf
    have hn : vpn + 1 - vpn = 1 := by omega
    simp only [hn]
    rfl
  refine ⟨hcore, by rw [hcore]; exact hb, ?_, ?_⟩
  · have hcore' : Mapping.map_one σ m vpn vpn fl = (σ, m, Except.error conflictMsg) :=
      mapOne_remap_core hb
    unfold Mapping.map_linear
    rw [hpg]
    have hstep : mapOnePages fl σ m [vpn] = (σ, m, Except.error conflictMsg) := by
      simp only [mapOnePages, hcore']
    rw [hstep]
  · intro f rest hfr
    have hbt : lookup { free := rest, mem := σ.mem } (rootOf m) vpn = some pte :=
      (lookup_mem_congr σ ⟨rest, σ.mem⟩ rfl).trans hb
    have hcore2 : Mapping.map_one { free := rest, mem := σ.mem } m vpn f fl =
        (⟨rest, σ.mem⟩, m, Except.error conflictMsg) :=
      mapOne_remap_core hbt
    have halo : Mapping.map_alloc_one σ m vpn fl = (σ, m, Except.error conflictMsg) := by
      unfold Mapping.map_alloc_one
      simp only [hfr, hcore2]
      have : (⟨f :: rest, σ.mem⟩ : KState) = σ := by
        cases σ with
        | mk fr me =>
            simp only at hfr ⊢
            rw [hfr]
      rw [this]
    have hstep : mapAllocPages fl σ m [vpn] [] = (σ, m, [], Except.error conflictMsg) := by
      simp only [mapAllocPages, halo]
    unfold Mapping.map_alloc
    simp only [hpg, hstep]
    have : { σ with free := List.reverse [] ++ σ.free } = σ := by
      cases σ with
      | mk fr me => simp
    rw [this]

/-- Witness for claim C3: after mapping page 5 into a fresh space, a
second `map_one` and a second one-page `map_alloc` on page 5 fail with
MappingConflict and change nothing. -/
theorem remap_conflict_preserves_binding_witness :
    lookup stMapped (rootOf mpMapped) 5 = some ⟨5, 3⟩ ∧
    Mapping.map_one stMapped mpMapped 5 9 7 =
      (stMapped, mpMapped, Except.error conflictMsg) ∧
    Mapping.map_linear stMapped mpMapped ⟨5, 6⟩ 7 =
      (stMapped, mpMapped, Except.error conflictMsg) ∧
    Mapping.map_alloc stMapped mpMapped ⟨5, 6⟩ 7 =
      (stMapped, mpMapped, Except.error conflictMsg) := by
  have hb : lookup stMapped (rootOf mpMapped) 5 = some ⟨5, 3⟩ := rfl
  obtain ⟨h1, h2, h3, h4⟩ :=
    remap_conflict_preserves_binding stMapped mpMapped 5 9 7 ⟨5, 3⟩ hb
  exact ⟨hb, h1, h3, h4 12 [13, 14, 15] rfl⟩

/-- Claim C9: whenever `map_one` fails with the MappingConflict error,
both interior entries on the path already existed (so no table node was
allocated during that walk), and the failing call leaves `page_tables`,
every table entry and the frame allocator's pool exactly unchanged. -/
theorem conflict_leaves_state_unchanged (σ : KState) (m : Mapping)
    (vpn ppn fl : Nat) (σ' : KState) (m' : Mapping)
    (hWF : WF σ (rootOf m))
    (h : Mapping.map_one σ m vpn ppn fl = (σ', m', Except.error conflictMsg)) :
    σ' = σ ∧ m' = m ∧
    ∃ e0 e1 p2, (σ.mem (rootOf m)).entries (level0 vpn) = some e0 ∧
      (σ.mem e0.ppn).entries (level1 vpn) = some e1 ∧
      (σ.mem e1.ppn).entries (level2 vpn) = some p2 := by
  obtain ⟨hσ, hm⟩ := mapOne_conflict_master hWF h
  refine ⟨hσ, hm, ?_⟩
  by_cases hlk : ∃ pte, lookup σ (rootOf m) vpn = some pte
  · obtain ⟨pte, hpte⟩ := hlk
    obtain ⟨e0, e1, h0, h1, h2⟩ := lookup_some_elim hpte
    exact ⟨e0, e1, pte, h0, h1, h2⟩
  · exfalso
    rcases hl : lookup σ (rootOf m) vpn with _ | pte
    · -- the walked slot is empty, so map_one cannot have conflicted
      unfold lookup at hl
      rcases h0 : (σ.mem (rootOf m)).entries (level0 vpn) with _ | e0 <;>
        simp only [h0] at hl
      · -- level-0 slot empty: map_one allocates or exhausts, never conflicts
        unfold Mapping.map_one at h
        simp only [h0] at h
        rcases hfr : σ.free with _ | ⟨f0, rest0⟩ <;> simp only [hfr] at h
        · have h3 := congrArg (fun p : KState × Mapping × Except String Unit => p.2.2) h
          simp only at h3
          injection h3 with h4
          exact absurd h4 (by decide)
        · have hf0 : f0 ∈ σ.free := by rw [hfr]; exact List.mem_cons_self _ _
          have hf0r : f0 ≠ rootOf m := hWF.free_ne_root hf0
          unfold mapOneL1 at h
          simp only [allocW_fresh_read hf0r, allocW_free] at h
          rcases hr0 : rest0 with _ | ⟨f1, rest⟩ <;> simp only [hr0] at h
          · have h3 := congrArg
              (fun p : KState × Mapping × Except String Unit => p.2.2) h
            simp only at h3
            injection h3 with h4
            exact absurd h4 (by decide)
          · subst hr0
            have hfr' : σ.free = f0 :: f1 :: rest := hfr
            have hf10 : f1 ≠ f0 := by
              intro he
              have hnd := hWF.free_nodup
              rw [hfr'] at hnd
              exact (List.nodup_cons.mp hnd).1 (he ▸ List.mem_cons_self _ _)
            unfold mapOneL2 at h
            simp only [allocW_fresh_read hf10] at h
            cases h
      · rcases h1 : (σ.mem e0.ppn).entries (level1 vpn) with _ | e1 <;>
          simp only [h1] at hl
        · -- level-1 slot empty
          unfold Mapping.map_one at h
          simp only [h0] at h
          unfold mapOneL1 at h
          simp only [h1] at h
          rcases hfr : σ.free with _ | ⟨f1, rest⟩ <;> simp only [hfr] at h
          · have h3 := congrArg
              (fun p : KState × Mapping × Except String Unit => p.2.2) h
            simp only at h3
            injection h3 with h4
            exact absurd h4 (by decide)
          · have hf1 : f1 ∈ σ.free := by rw [hfr]; exact List.mem_cons_self _ _
            have hc0 : e0.ppn ∈ children σ (rootOf m) := entry_mem_children h0
            have hf1c0 : f1 ≠ e0.ppn := by
              intro he
              subst he
              exact hWF.free_notin_children hf1 hc0
            unfold mapOneL2 at h
            simp only [allocW_fresh_read hf1c0] at h
            cases h
        · -- level-2 slot empty: map_one succeeds
          unfold Mapping.map_one at h
          simp only [h0] at h
          unfold mapOneL1 at h
          simp only [h1] at h
          unfold mapOneL2 at h
          simp only [hl] at h
          cases h
    · exact hlk ⟨pte, hl⟩

/-- Witness for claim C9: the concrete conflicting `map_one` on the
already mapped page 5 leaves the concrete state and mapping unchanged. -/
theorem conflict_leaves_state_unchanged_witness :
    WF stMapped (rootOf mpMapped) ∧
    (Mapping.map_one stMapped mpMapped 5 9 7).1 = stMapped ∧
    (Mapping.map_one stMapped mpMapped 5 9 7).2.1 = mpMapped := by
  have hWF : WF stMapped (rootOf mpMapped) := by decide
  have h : Mapping.map_one stMapped mpMapped 5 9 7 =
      ((Mapping.map_one stMapped mpMapped 5 9 7).1,
       (Mapping.map_one stMapped mpMapped 5 9 7).2.1,
       Except.error conflictMsg) := rfl
  obtain ⟨h1, h2, h3⟩ :=
    conflict_leaves_state_unchanged stMapped mpMapped 5 9 7 _ _ hWF h
  exact ⟨hWF, h1, h2⟩

/-- Claim C8: `new` produces a `page_tables` list holding exactly the
freshly allocated root at index 0; `new_kernel` produces a non-empty
`page_tables` whose index-0 entry is the first frame the allocator
handed out; and every `map_one`/`map_linear`/`map_alloc`, successful or
failed, only appends to `page_tables`, so the entry at index 0 is never
replaced or removed. -/
theorem page_tables_root_stable :
    (∀ (σ σ' : KState) (m : Mapping), Mapping.new σ = (σ', Except.ok m) →
      ∃ f rest, σ.free = f :: rest ∧ m.page_tables = [f]) ∧
    (∀ (σ : KState) (L : KLayout) (σ' : KState) (m : Mapping),
      Mapping.new_kernel σ L = (σ', Except.ok m) →
      m.page_tables ≠ [] ∧ rootOf m = σ.free.headD 0) ∧
    (∀ (σ : KState) (m : Mapping) (vpn ppn fl : Nat), ∃ t,
      (Mapping.map_one σ m vpn ppn fl).2.1.page_tables = m.page_tables ++ t) ∧
    (∀ (σ : KState) (m : Mapping) (r : PageRange) (fl : Nat), ∃ t,
      (Mapping.map_linear σ m r fl).2.1.page_tables = m.page_tables ++ t) ∧
    (∀ (σ : KState) (m : Mapping) (r : PageRange) (fl : Nat), ∃ t,
      (Mapping.map_alloc σ m r fl).2.1.page_tables = m.page_tables ++ t) := by
  have hnew : ∀ (σ σ' : KState) (m : Mapping), Mapping.new σ = (σ', Except.ok m) →
      ∃ f rest, σ.free = f :: rest ∧ m.page_tables = [f] := by
    intro σ σ' m h
    unfold Mapping.new at h
    rcases hfr : σ.free with _ | ⟨f, rest⟩ <;> simp only [hfr] at h
    · cases h
    · cases h
      exact ⟨f, rest, rfl, rfl⟩
  refine ⟨hnew, ?_, mapOne_pt, map_linear_pt, map_alloc_pt⟩
  intro σ L σ' m h
  unfold Mapping.new_kernel at h
  rcases hn : Mapping.new σ with ⟨σ0, e0 | m0⟩ <;> simp only [hn] at h
  · cases h
  · obtain ⟨f, rest, hfr, hpt0⟩ := hnew σ σ0 m0 hn
    rcases h1 : Mapping.map_linear σ0 m0 (rangeOf L.text_start L.rodata_start)
        (Flags.VALID ||| Flags.READABLE ||| Flags.EXECUTABLE) with ⟨σ1, m1, e1 | u1⟩ <;>
      simp only [h1] at h
    · cases h
    · cases u1
      rcases h2 : Mapping.map_linear σ1 m1 (rangeOf L.rodata_start L.data_start)
          (Flags.VALID ||| Flags.READABLE) with ⟨σ2, m2, e2 | u2⟩ <;> simp only [h2] at h
      · cases h
      · cases u2
        rcases h3 : Mapping.map_linear σ2 m2 (rangeOf L.data_start L.bss_start)
            (Flags.VALID ||| Flags.READABLE ||| Flags.WRITABLE) with
          ⟨σ3, m3, e3 | u3⟩ <;> simp only [h3] at h
        · cases h
        · cases u3
          rcases h4 : Mapping.map_linear σ3 m3 (rangeOf L.bss_start L.boot_stack_start)
              (Flags.VALID ||| Flags.READABLE ||| Flags.WRITABLE) with
            ⟨σ4, m4, e4 | u4⟩ <;> simp only [h4] at h
          · cases h
          · cases u4
            rcases h5 : Mapping.map_linear σ4 m4 (rangeOf L.kernel_end L.memory_end)
                (Flags.VALID ||| Flags.READABLE ||| Flags.WRITABLE) with
              ⟨σ5, m5, e5 | u5⟩ <;> simp only [h5] at h
            · cases h
            · cases u5
              cases h
              obtain ⟨t1, ht1⟩ := map_linear_pt σ0 m0
                (rangeOf L.text_start L.rodata_start)
                (Flags.VALID ||| Flags.READABLE ||| Flags.EXECUTABLE)
              rw [h1] at ht1
              obtain ⟨t2, ht2⟩ := map_linear_pt σ1 m1
                (rangeOf L.rodata_start L.data_start)
                (Flags.VALID ||| Flags.READABLE)
              rw [h2] at ht2
              obtain ⟨t3, ht3⟩ := map_linear_pt σ2 m2
                (rangeOf L.data_start L.bss_start)
                (Flags.VALID ||| Flags.READABLE ||| Flags.WRITABLE)
              rw [h3] at ht3
              obtain ⟨t4, ht4⟩ := map_linear_pt σ3 m3
                (rangeOf L.bss_start L.boot_stack_start)
                (Flags.VALID ||| Flags.READABLE ||| Flags.WRITABLE)
              rw [h4] at ht4
              obtain ⟨t5, ht5⟩ := map_linear_pt σ4 m4
                (rangeOf L.kernel_end L.memory_end)
                (Flags.VALID ||| Flags.READABLE ||| Flags.WRITABLE)
              rw [h5] at ht5
              simp only at ht1 ht2 ht3 ht4 ht5
              have hpt : m.page_tables = [f] ++ (t1 ++ t2 ++ t3 ++ t4 ++ t5) := by
                rw [ht5, ht4, ht3, ht2, ht1, hpt0]
                simp [List.append_assoc]
              constructor
              · rw [hpt]
                simp
              · unfold rootOf
                rw [hpt, hfr]
                rfl

/-- Witness for claim C8: concrete `new` and `new_kernel` runs. -/
theorem page_tables_root_stable_witness :
    (∃ f rest, stInit.free = f :: rest ∧
      (mOf (Mapping.new stInit).2).page_tables = [f]) ∧
    (mOf (Mapping.new_kernel stInit layoutTight).2).page_tables ≠ [] ∧
    rootOf (mOf (Mapping.new_kernel stInit layoutTight).2) = stInit.free.headD 0 := by
  obtain ⟨hnew, hker, hone, hlin, halc⟩ := page_tables_root_stable
  have h1 : Mapping.new stInit =
      ((Mapping.new stInit).1, Except.ok (mOf (Mapping.new stInit).2)) := rfl
  have h2 : Mapping.new_kernel stInit layoutTight =
      ((Mapping.new_kernel stInit layoutTight).1,
       Except.ok (mOf (Mapping.new_kernel stInit layoutTight).2)) := rfl
  obtain ⟨hk1, hk2⟩ := hker stInit layoutTight _ _ h2
  exact ⟨hnew stInit _ _ h1, hk1, hk2⟩

/-- Claim C4: after a successful `map_linear` call, every virtual page of
the mapped half-open range resolves through the table to a leaf whose
physical page number equals the virtual page number (with the call's
flags). -/
theorem map_linear_identity (σ : KState) (m : Mapping) (r : PageRange) (fl : Nat)
    (σ' : KState) (m' : Mapping)
    (hWF : WF σ (rootOf m)) (hne : m.page_tables ≠ [])
    (h : Mapping.map_linear σ m r fl = (σ', m', Except.ok ())) :
    ∀ v, r.start ≤ v → v < r.stop → lookup σ' (rootOf m) v = some ⟨v, fl⟩ := by
  unfold Mapping.map_linear at h
  rcases hmp : mapOnePages fl σ m (pagesOf r) with ⟨σ1, m1, e1 | u⟩ <;>
    simp only [hmp] at h
  · cases h
  · cases u
    cases h
    obtain ⟨_, _, _, _, hall⟩ := mapOnePages_ok_master fl (pagesOf r) hWF hne hmp
    intro v hv1 hv2
    apply hall
    unfold pagesOf
    rw [List.mem_range'_1]
    omega

/-- Witness for claim C4: mapping pages 5 and 6 linearly binds page 6 to
physical page 6. -/
theorem map_linear_identity_witness :
    WF stInit (rootOf mpInit) ∧
    lookup (Mapping.map_linear stInit mpInit ⟨5, 7⟩ 3).1 (rootOf mpInit) 6 =
      some ⟨6, 3⟩ := by
  have hWF : WF stInit (rootOf mpInit) := by decide
  have h : Mapping.map_linear stInit mpInit ⟨5, 7⟩ 3 =
      ((Mapping.map_linear stInit mpInit ⟨5, 7⟩ 3).1,
       (Mapping.map_linear stInit mpInit ⟨5, 7⟩ 3).2.1, Except.ok ()) := rfl
  exact ⟨hWF, map_linear_identity stInit mpInit ⟨5, 7⟩ 3 _ _ hWF (by decide) h 6
    (by decide) (by decide)⟩

/-- Claim C5: a multi-page call iterates the pages of its half-open range
in ascending order (`pagesOf` splits as the successfully mapped prefix
`done` followed by the failing page) and aborts at the first per-page
failure, returning that page's error; on failure the segments list is
exactly as before the call, while the leaves already written for the
earlier pages of the same call are still resolved by the table (no
rollback).  Stated for `map_linear` and for `map_alloc`. -/
theorem map_range_first_failure (σ : KState) (m : Mapping) (r : PageRange)
    (fl : Nat) (hWF : WF σ (rootOf m)) (hne : m.page_tables ≠ []) :
    (∀ σ' m' e, Mapping.map_linear σ m r fl = (σ', m', Except.error e) →
      m'.segments = m.segments ∧
      ∃ done v rest, pagesOf r = done ++ v :: rest ∧
        (∀ w ∈ done, lookup σ' (rootOf m) w = some ⟨w, fl⟩) ∧
        ∃ σk mk, mapOnePages fl σ m done = (σk, mk, Except.ok ()) ∧
          (Mapping.map_one σk mk v v fl).2.2 = Except.error e) ∧
    (∀ σ' m' e, Mapping.map_alloc σ m r fl = (σ', m', Except.error e) →
      m'.segments = m.segments ∧
      ∃ done v rest gs, pagesOf r = done ++ v :: rest ∧ gs.length = done.length ∧
        (∀ p ∈ done.zip gs, lookup σ' (rootOf m) p.1 = some ⟨p.2, fl⟩) ∧
        ∃ σk mk, mapAllocPages fl σ m done [] = (σk, mk, gs, Except.ok ()) ∧
          (Mapping.map_alloc_one σk mk v fl).2.2 = Except.error e) := by
  constructor
  · intro σ' m' e h
    unfold Mapping.map_linear at h
    rcases hmp : mapOnePages fl σ m (pagesOf r) with ⟨σ1, m1, e1 | u⟩ <;>
      simp only [hmp] at h
    · cases h
      obtain ⟨hseg, hpt, hpres, done, v, rest, hsplit, hdone, σk, mk, hok, herr⟩ :=
        mapOnePages_err_master fl (pagesOf r) hWF hne hmp
      exact ⟨hseg, done, v, rest, hsplit, hdone, σk, mk, hok, herr⟩
    · cases u
      cases h
  · intro σ' m' e h
    unfold Mapping.map_alloc at h
    rcases hmp : mapAllocPages fl σ m (pagesOf r) [] with ⟨σ1, m1, fs1, e1 | u⟩ <;>
      simp only [hmp] at h
    · cases h
      obtain ⟨hseg, hpt, hpres, done, v, rest, gs, hsplit, hfs, hlen, hdone,
        σk, mk, hok, herr⟩ := mapAllocPages_err_master fl (pagesOf r) hWF hne hmp
      refine ⟨hseg, done, v, rest, gs, hsplit, hlen, ?_, σk, mk, ?_, herr⟩
      · intro p hp
        have := hdone p hp
        exact (lookup_mem_congr σ1
          ⟨fs1.reverse ++ σ1.free, σ1.mem⟩ rfl).trans this
      · rw [hok]
        simp
    · cases u
      cases h

/-- Witness for claim C5: on the concrete state with page 5 already
mapped, `map_linear` over pages 4..6 maps page 4, then aborts at page 5
with the conflict error and records no segment. -/
theorem map_range_first_failure_witness :
    WF stMapped (rootOf mpMapped) ∧
    (Mapping.map_linear stMapped mpMapped ⟨4, 7⟩ 9).2.1.segments =
      mpMapped.segments ∧
    ∃ done v rest, pagesOf ⟨4, 7⟩ = done ++ v :: rest ∧
      (∀ w ∈ done,
        lookup (Mapping.map_linear stMapped mpMapped ⟨4, 7⟩ 9).1
          (rootOf mpMapped) w = some ⟨w, 9⟩) ∧
      ∃ σk mk, mapOnePages 9 stMapped mpMapped done = (σk, mk, Except.ok ()) ∧
        (Mapping.map_one σk mk v v 9).2.2 = Except.error conflictMsg := by
  have hWF : WF stMapped (rootOf mpMapped) := by decide
  have h : Mapping.map_linear stMapped mpMapped ⟨4, 7⟩ 9 =
      ((Mapping.map_linear stMapped mpMapped ⟨4, 7⟩ 9).1,
       (Mapping.map_linear stMapped mpMapped ⟨4, 7⟩ 9).2.1,
       Except.error conflictMsg) := rfl
  obtain ⟨hlin, _⟩ := map_range_first_failure stMapped mpMapped ⟨4, 7⟩ 9 hWF (by decide)
  obtain ⟨hseg, hsplit⟩ := hlin _ _ _ h
  exact ⟨hWF, hseg, hsplit⟩

/-- Claim C10: when `map_alloc` fails partway through its range, the
partially built Framed segment is dropped — no segment is recorded and
every backing frame already allocated for the earlier pages of the call
is back in the allocator's free pool — yet the leaf entries written for
those pages are still resolved by the table and still reference the
released physical pages. -/
theorem map_alloc_failure_releases_frames (σ : KState) (m : Mapping)
    (r : PageRange) (fl : Nat) (σ' : KState) (m' : Mapping) (e : String)
    (hWF : WF σ (rootOf m)) (hne : m.page_tables ≠ [])
    (h : Mapping.map_alloc σ m r fl = (σ', m', Except.error e)) :
    m'.segments = m.segments ∧
    ∃ done v rest gs, pagesOf r = done ++ v :: rest ∧ gs.length = done.length ∧
      ∀ p ∈ done.zip gs, p.2 ∈ σ'.free ∧
        lookup σ' (rootOf m) p.1 = some ⟨p.2, fl⟩ := by
  unfold Mapping.map_alloc at h
  rcases hmp : mapAllocPages fl σ m (pagesOf r) [] with ⟨σ1, m1, fs1, e1 | u⟩ <;>
    simp only [hmp] at h
  · cases h
    obtain ⟨hseg, hpt, hpres, done, v, rest, gs, hsplit, hfs, hlen, hdone,
      σk, mk, hok, herr⟩ := mapAllocPages_err_master fl (pagesOf r) hWF hne hmp
    have hg : fs1 = gs := by simpa using hfs
    refine ⟨hseg, done, v, rest, gs, hsplit, hlen, ?_⟩
    intro p hp
    constructor
    · show p.2 ∈ fs1.reverse ++ σ1.free
      rw [hg]
      have : p.2 ∈ gs := (List.of_mem_zip hp).2
      exact List.mem_append.mpr (Or.inl (List.mem_reverse.mpr this))
    · exact (lookup_mem_congr σ1
        ⟨fs1.reverse ++ σ1.free, σ1.mem⟩ rfl).trans (hdone p hp)
  · cases u
    cases h

/-- Witness for claim C10: with exactly three free frames, `map_alloc`
over pages 5..6 binds page 5 to frame 10, exhausts the allocator on page
6, and returns frame 10 to the pool while page 5's leaf still references
it. -/
theorem map_alloc_failure_releases_frames_witness :
    WF stThree (rootOf mpInit) ∧
    (Mapping.map_alloc stThree mpInit ⟨5, 7⟩ 3).2.1.segments = mpInit.segments ∧
    ∃ done v rest gs, pagesOf ⟨5, 7⟩ = done ++ v :: rest ∧
      gs.length = done.length ∧
      ∀ p ∈ done.zip gs, p.2 ∈ (Mapping.map_alloc stThree mpInit ⟨5, 7⟩ 3).1.free ∧
        lookup (Mapping.map_alloc stThree mpInit ⟨5, 7⟩ 3).1 (rootOf mpInit) p.1 =
          some ⟨p.2, 3⟩ := by
  have hWF : WF stThree (rootOf mpInit) := by decide
  have h : Mapping.map_alloc stThree mpInit ⟨5, 7⟩ 3 =
      ((Mapping.map_alloc stThree mpInit ⟨5, 7⟩ 3).1,
       (Mapping.map_alloc stThree mpInit ⟨5, 7⟩ 3).2.1,
       Except.error allocMsg) := rfl
  obtain ⟨hseg, hrest⟩ :=
    map_alloc_failure_releases_frames stThree mpInit ⟨5, 7⟩ 3 _ _ _ hWF (by decide) h
  exact ⟨hWF, hseg, hrest⟩

/-- Counterexample to claim C7 as stated: `map_linear` over pages
262143..262144 with three free frames maps the first page (consuming
frames 1 and 2 for interior tables), then on page 262144 allocates frame
3, links it into the root (`entries 1` holds the Interior entry to 3),
and exhausts the allocator; the call fails — the created interior node is
still linked, but its frame 3 is back in the free pool, not "still
allocated" as the claim asserts. -/
theorem failed_walk_frees_linked_tables_cex :
    (Mapping.map_linear stTight mpInit ⟨262143, 262145⟩ 7).2.2 =
      Except.error allocMsg ∧
    ((Mapping.map_linear stTight mpInit ⟨262143, 262145⟩ 7).1.mem 0).entries 1 =
      some ⟨3, Flags.VALID⟩ ∧
    3 ∈ (Mapping.map_linear stTight mpInit ⟨262143, 262145⟩ 7).1.free := by
  refine ⟨rfl, rfl, ?_⟩
  decide

/-- Claim C7 (amended): interior table nodes created while walking toward
the failing page are already linked into the tree when the failure is
detected and their parent entries are never rolled back (the
counterexample exhibits a linked node surviving the call), but their
frames do not remain allocated: on any failing `map_one` nothing is
committed — `page_tables` is exactly unchanged and every frame taken
from the allocator during that walk is returned to it, restoring the
free-frame count.  Newly created interior nodes are appended to
`page_tables` only when the whole walk for that one page succeeds. -/
theorem map_one_failure_no_commit (σ : KState) (m : Mapping) (vpn ppn fl : Nat)
    (σ' : KState) (m' : Mapping) (e : String)
    (hWF : WF σ (rootOf m))
    (h : Mapping.map_one σ m vpn ppn fl = (σ', m', Except.error e)) :
    m' = m ∧ σ'.free.length = σ.free.length := by
  obtain ⟨h1, h2, _⟩ := mapOne_err_master hWF h
  exact ⟨h1, h2⟩

/-- Witness for claim C7 (amended): with one free frame, a `map_one` that
allocates it for a level-1 table and then exhausts the allocator returns
the frame — the free count is restored and nothing is committed. -/
theorem map_one_failure_no_commit_witness :
    WF stOne (rootOf mpInit) ∧
    (Mapping.map_one stOne mpInit 0 9 3).2.1 = mpInit ∧
    (Mapping.map_one stOne mpInit 0 9 3).1.free.length = stOne.free.length := by
  have hWF : WF stOne (rootOf mpInit) := by decide
  have h : Mapping.map_one stOne mpInit 0 9 3 =
      ((Mapping.map_one stOne mpInit 0 9 3).1,
       (Mapping.map_one stOne mpInit 0 9 3).2.1,
       Except.error allocMsg) := rfl
  obtain ⟨h1, h2⟩ := map_one_failure_no_commit stOne mpInit 0 9 3 _ _ _ hWF h
  exact ⟨hWF, h1, h2⟩

/-- Counterexample to claim C2 as stated: the boundaries of `layoutGap`
satisfy the claim's ordering (with `boot_stack_start < kernel_end`
allowed by its `≤`), `new_kernel` succeeds and returns exactly the five
Linear segments built by the code, yet virtual page 5 — inside
`[text_start, memory_end)` — is covered by none of them: the boot-stack
region `[boot_stack_start, kernel_end)` is left unmapped, so the five
ranges are not gapless and do not cover `[text_start, memory_end)`. -/
theorem new_kernel_gapless_cex :
    (layoutGap.text_start < layoutGap.rodata_start ∧
     layoutGap.rodata_start < layoutGap.data_start ∧
     layoutGap.data_start < layoutGap.bss_start ∧
     layoutGap.bss_start < layoutGap.boot_stack_start ∧
     layoutGap.boot_stack_start ≤ layoutGap.kernel_end ∧
     layoutGap.kernel_end < layoutGap.memory_end) ∧
    (Mapping.new_kernel stInit layoutGap).2 =
      Except.ok ⟨[10, 11, 12],
        [Segment.linear ⟨1, 2⟩ 11, Segment.linear ⟨2, 3⟩ 3,
         Segment.linear ⟨3, 4⟩ 7, Segment.linear ⟨4, 5⟩ 7,
         Segment.linear ⟨6, 7⟩ 7]⟩ ∧
    layoutGap.text_start / 4096 ≤ 5 ∧ 5 < layoutGap.memory_end / 4096 ∧
    ∀ s ∈ segsOf (Mapping.new_kernel stInit layoutGap).2,
      ¬((s.prange).start ≤ 5 ∧ 5 < (s.prange).stop) := by
  refine ⟨by decide, rfl, by decide, by decide, ?_⟩
  decide

/-- Claim C2 (amended): for boundary addresses ordered as the claim
demands but with `boot_stack_start = kernel_end` (the counterexample
shows a strict gap `boot_stack_start < kernel_end` leaves the boot-stack
pages uncovered), a successful `new_kernel` returns exactly five Linear
segments — r-x, r--, rw-, rw-, rw- — whose page ranges are contiguous
and gapless and together cover every page of
`[text_start, memory_end)`. -/
theorem new_kernel_five_segments (σ : KState) (L : KLayout) (σ' : KState)
    (m : Mapping)
    (h1 : L.text_start < L.rodata_start) (h2 : L.rodata_start < L.data_start)
    (h3 : L.data_start < L.bss_start) (h4 : L.bss_start < L.boot_stack_start)
    (h5 : L.boot_stack_start = L.kernel_end) (_h6 : L.kernel_end < L.memory_end)
    (h : Mapping.new_kernel σ L = (σ', Except.ok m)) :
    m.segments = [
      Segment.linear (rangeOf L.text_start L.rodata_start)
        (Flags.VALID ||| Flags.READABLE ||| Flags.EXECUTABLE),
      Segment.linear (rangeOf L.rodata_start L.data_start)
        (Flags.VALID ||| Flags.READABLE),
      Segment.linear (rangeOf L.data_start L.bss_start)
        (Flags.VALID ||| Flags.READABLE ||| Flags.WRITABLE),
      Segment.linear (rangeOf L.bss_start L.boot_stack_start)
        (Flags.VALID ||| Flags.READABLE ||| Flags.WRITABLE),
      Segment.linear (rangeOf L.kernel_end L.memory_end)
        (Flags.VALID ||| Flags.READABLE ||| Flags.WRITABLE)] ∧
    ∀ p, L.text_start / 4096 ≤ p → p < L.memory_end / 4096 →
      ∃ s ∈ m.segments, (s.prange).start ≤ p ∧ p < (s.prange).stop := by
  have hseg : m.segments = [
      Segment.linear (rangeOf L.text_start L.rodata_start)
        (Flags.VALID ||| Flags.READABLE ||| Flags.EXECUTABLE),
      Segment.linear (rangeOf L.rodata_start L.data_start)
        (Flags.VALID ||| Flags.READABLE),
      Segment.linear (rangeOf L.data_start L.bss_start)
        (Flags.VALID ||| Flags.READABLE ||| Flags.WRITABLE),
      Segment.linear (rangeOf L.bss_start L.boot_stack_start)
        (Flags.VALID ||| Flags.READABLE ||| Flags.WRITABLE),
      Segment.linear (rangeOf L.kernel_end L.memory_end)
        (Flags.VALID ||| Flags.READABLE ||| Flags.WRITABLE)] := by
    unfold Mapping.new_kernel at h
    rcases hn : Mapping.new σ with ⟨σ0, e0 | m0⟩ <;> simp only [hn] at h
    · cases h
    · have hm0 : m0.segments = [] := by
        unfold Mapping.new at hn
        rcases hfr : σ.free with _ | ⟨f, rest⟩ <;> simp only [hfr] at hn
        · cases hn
        · cases hn
          rfl
      rcases hl1 : Mapping.map_linear σ0 m0 (rangeOf L.text_start L.rodata_start)
          (Flags.VALID ||| Flags.READABLE ||| Flags.EXECUTABLE) with
        ⟨σ1, m1, e1 | u1⟩ <;> simp only [hl1] at h
      · cases h
      · cases u1
        rcases hl2 : Mapping.map_linear σ1 m1 (rangeOf L.rodata_start L.data_start)
            (Flags.VALID ||| Flags.READABLE) with ⟨σ2, m2, e2 | u2⟩ <;>
          simp only [hl2] at h
        · cases h
        · cases u2
          rcases hl3 : Mapping.map_linear σ2 m2 (rangeOf L.data_start L.bss_start)
              (Flags.VALID ||| Flags.READABLE ||| Flags.WRITABLE) with
            ⟨σ3, m3, e3 | u3⟩ <;> simp only [hl3] at h
          · cases h
          · cases u3
            rcases hl4 : Mapping.map_linear σ3 m3
                (rangeOf L.bss_start L.boot_stack_start)
                (Flags.VALID ||| Flags.READABLE ||| Flags.WRITABLE) with
              ⟨σ4, m4, e4 | u4⟩ <;> simp only [hl4] at h
            · cases h
            · cases u4
              rcases hl5 : Mapping.map_linear σ4 m4
                  (rangeOf L.kernel_end L.memory_end)
                  (Flags.VALID ||| Flags.READABLE ||| Flags.WRITABLE) with
                ⟨σ5, m5, e5 | u5⟩ <;> simp only [hl5] at h
              · cases h
              · cases u5
                cases h
                rw [map_linear_segments_ok hl5, map_linear_segments_ok hl4,
                  map_linear_segments_ok hl3, map_linear_segments_ok hl2,
                  map_linear_segments_ok hl1, hm0]
                rfl
  refine ⟨hseg, ?_⟩
  intro p hp1 hp2
  have d1 : L.text_start / 4096 ≤ L.rodata_start / 4096 :=
    Nat.div_le_div_right h1.le
  have d2 : L.rodata_start / 4096 ≤ L.data_start / 4096 :=
    Nat.div_le_div_right h2.le
  have d3 : L.data_start / 4096 ≤ L.bss_start / 4096 :=
    Nat.div_le_div_right h3.le
  have d4 : L.bss_start / 4096 ≤ L.boot_stack_start / 4096 :=
    Nat.div_le_div_right h4.le
  have d5 : L.boot_stack_start / 4096 = L.kernel_end / 4096 := by rw [h5]
  by_cases c1 : p < L.rodata_start / 4096
  · exact ⟨Segment.linear (rangeOf L.text_start L.rodata_start)
      (Flags.VALID ||| Flags.READABLE ||| Flags.EXECUTABLE),
      by rw [hseg]; simp, hp1, c1⟩
  · by_cases c2 : p < L.data_start / 4096
    · exact ⟨Segment.linear (rangeOf L.rodata_start L.data_start)
        (Flags.VALID ||| Flags.READABLE),
        by rw [hseg]; simp, by show L.rodata_start / 4096 ≤ p; omega, c2⟩
    · by_cases c3 : p < L.bss_start / 4096
      · exact ⟨Segment.linear (rangeOf L.data_start L.bss_start)
          (Flags.VALID ||| Flags.READABLE ||| Flags.WRITABLE),
          by rw [hseg]; simp, by show L.data_start / 4096 ≤ p; omega, c3⟩
      · by_cases c4 : p < L.boot_stack_start / 4096
        · exact ⟨Segment.linear (rangeOf L.bss_start L.boot_stack_start)
            (Flags.VALID ||| Flags.READABLE ||| Flags.WRITABLE),
            by rw [hseg]; simp, by show L.bss_start / 4096 ≤ p; omega, c4⟩
        · refine ⟨Segment.linear (rangeOf L.kernel_end L.memory_end)
            (Flags.VALID ||| Flags.READABLE ||| Flags.WRITABLE),
            by rw [hseg]; simp, ?_, hp2⟩
          show L.kernel_end / 4096 ≤ p
          rw [← d5]
          omega

/-- Witness for claim C2 (amended): the tight layout (with
`boot_stack_start = kernel_end`) produces exactly the five contiguous
segments and covers every page of `[text_start, memory_end)`. -/
theorem new_kernel_five_segments_witness :
    (layoutTight.text_start < layoutTight.rodata_start ∧
     layoutTight.boot_stack_start = layoutTight.kernel_end ∧
     layoutTight.kernel_end < layoutTight.memory_end) ∧
    (mOf (Mapping.new_kernel stInit layoutTight).2).segments = [
      Segment.linear (rangeOf layoutTight.text_start layoutTight.rodata_start)
        (Flags.VALID ||| Flags.READABLE ||| Flags.EXECUTABLE),
      Segment.linear (rangeOf layoutTight.rodata_start layoutTight.data_start)
        (Flags.VALID ||| Flags.READABLE),
      Segment.linear (rangeOf layoutTight.data_start layoutTight.bss_start)
        (Flags.VALID ||| Flags.READABLE ||| Flags.WRITABLE),
      Segment.linear (rangeOf layoutTight.bss_start layoutTight.boot_stack_start)
        (Flags.VALID ||| Flags.READABLE ||| Flags.WRITABLE),
      Segment.linear (rangeOf layoutTight.kernel_end layoutTight.memory_end)
        (Flags.VALID ||| Flags.READABLE ||| Flags.WRITABLE)] ∧
    ∀ p, layoutTight.text_start / 4096 ≤ p → p < layoutTight.memory_end / 4096 →
      ∃ s ∈ (mOf (Mapping.new_kernel stInit layoutTight).2).segments,
        (s.prange).start ≤ p ∧ p < (s.prange).stop := by
  have h : Mapping.new_kernel stInit layoutTight =
      ((Mapping.new_kernel stInit layoutTight).1,
       Except.ok (mOf (Mapping.new_kernel stInit layoutTight).2)) := rfl
  obtain ⟨hs, hc⟩ := new_kernel_five_segments stInit layoutTight _ _
    (by decide) (by decide) (by decide) (by decide) (by decide) (by decide) h
  exact ⟨⟨by decide, by decide, by decide⟩, hs, hc⟩
